import Mathlib

/-!
# my-eth-parser: block synchronisation engine, store and facade

A shallow embedding of `internal/model.go`, `internal/dao.go`, the `EthGateway`
interface and the method `GetMostRecentBlockNumber` of `internal/gateway.go`,
`pkg/parser.go` and `pkg/my_parser.go`.

* Go `int` is the 64-bit signed integer: values are `Int`s between `minInt` and
  `maxInt`, and `blockNumber++` is `wrapInt (blockNumber + 1)`.
* Go `map[string][]TransactionModel` is a lookup function
  `String → Option (List TransactionModel)`: `m k = none` is the `ok = false`
  result of `_, ok := m[k]`.
* A call through the `EthGateway` interface returns a value, returns an error,
  or panics (`GwResult`). An `EthGateway` value gives the answers of one pass.
* The engine state carries the list of calls issued so far (`Event`), appended
  in program order, so that statements about what was fetched, appended and in
  which order can be made.
* The `for blockNumber := ...` loop of `update` may not terminate (the counter
  wraps at `maxInt`), so `blockLoop` takes fuel and reports `outOfFuel` together
  with the state reached. A pass that ran to its `time.Sleep` reports `slept`.
* The field `Type` of the two transaction structs is named `TxType`.
-/

namespace EthParser

/-! ## internal/model.go -/

/-- One element of `TransactionModel.AccessList`. -/
structure AccessListEntry where
  Address : String
  StorageKeys : List String
deriving DecidableEq, Repr

/-- The `TransactionModel` struct of `internal/model.go`. -/
structure TransactionModel where
  BlockHash : String
  BlockNumber : String
  From : String
  Gas : String
  GasPrice : String
  MaxPriorityFeePerGas : String
  MaxFeePerGas : String
  MaxFeePerBlobGas : String
  Hash : String
  Input : String
  Nonce : String
  To : String
  TransactionIndex : String
  Value : String
  TxType : String
  AccessList : List AccessListEntry
  ChainId : String
  V : String
  R : String
  S : String
  BlobVersionedHashes : List String
deriving DecidableEq, Repr

/-! ## pkg/parser.go -/

/-- The public `Transaction` struct of `pkg/parser.go`. -/
structure Transaction where
  BlockHash : String
  BlockNumber : String
  From : String
  Gas : String
  GasPrice : String
  Hash : String
  Input : String
  Nonce : String
  To : String
  TransactionIndex : String
  Value : String
  TxType : String
  ChainId : String
deriving DecidableEq, Repr

/-! ## Go integers and strings -/

/-- Largest Go `int` (64-bit). -/
def maxInt : Int := 2 ^ 63 - 1

/-- Smallest Go `int` (64-bit). -/
def minInt : Int := -(2 ^ 63)

/-- Two's-complement wrap-around of an integer into the Go `int` range. -/
def wrapInt (x : Int) : Int := (x + 2 ^ 63) % 2 ^ 64 - 2 ^ 63

/-- Lower-casing of one character: `A`..`Z` go to `a`..`z`, every other
character is kept. -/
def lowerChar (c : Char) : Char := c.toLower

namespace strings

/-- Go `strings.ToLower` on the letters `A`..`Z`, which are the only letters with
two cases in a hexadecimal address; other characters are kept. -/
def ToLower (s : String) : String := String.mk (s.data.map lowerChar)

end strings

open strings

/-! ## internal/dao.go -/

/-- The `InMemoryDao` struct: the watermark and the address map. The mutex is
not modelled; every operation below is one critical section. -/
structure InMemoryDao where
  latestBlock : Int
  m : String → Option (List TransactionModel)

namespace InMemoryDao

/-- Constructor `NewInMemoryDao`: watermark 0 (the zero value) and an empty map. -/
def NewInMemoryDao : InMemoryDao :=
  { latestBlock := 0, m := fun _ => none }

/-- Method `GetLatestBlock`: the watermark. -/
def GetLatestBlock (dao : InMemoryDao) : Int := dao.latestBlock

/-- Method `UpdateLatestBlock`: plain assignment of the watermark. -/
def UpdateLatestBlock (dao : InMemoryDao) (block : Int) : InMemoryDao :=
  { dao with latestBlock := block }

/-- Go map assignment `m[k] = v`. -/
def mapSet (m : String → Option (List TransactionModel)) (k : String)
    (v : List TransactionModel) : String → Option (List TransactionModel) :=
  fun k2 => if k2 = k then some v else m k2

/-- Go map read `m[k]`: the zero value (a nil slice) for a missing key. -/
def mapGet (m : String → Option (List TransactionModel)) (k : String) :
    List TransactionModel :=
  match m k with
  | some v => v
  | none => []

/-- Method `CreateAddress`: insert an empty log unless the key is present. -/
def CreateAddress (dao : InMemoryDao) (address : String) : InMemoryDao :=
  match dao.m address with
  | some _ => dao
  | none => { dao with m := mapSet dao.m address [] }

/-- Method `GetAllAddresses`: the key set of the map, copied. The returned
`map[string]int` is only ever used for membership tests. -/
def GetAllAddresses (dao : InMemoryDao) : String → Bool :=
  fun key => (dao.m key).isSome

/-- Method `SaveTransaction`: create the key if missing, then append. -/
def SaveTransaction (dao : InMemoryDao) (address : String)
    (transaction : TransactionModel) : InMemoryDao :=
  let m1 := match dao.m address with
    | some _ => dao.m
    | none => mapSet dao.m address []
  { dao with m := mapSet m1 address (mapGet m1 address ++ [transaction]) }

/-- Method `GetTransactions`: `nil` for a missing key, the stored log otherwise. -/
def GetTransactions (dao : InMemoryDao) (address : String) : List TransactionModel :=
  match dao.m address with
  | none => []
  | some _ => mapGet dao.m address

end InMemoryDao

/-! ## internal/gateway.go: the `EthGateway` interface -/

/-- Result of a call through the gateway interface: a value, an error, or a
panic raised inside the call. -/
inductive GwResult (α : Type) where
  | ok (v : α)
  | err (e : String)
  | panic (r : String)
deriving DecidableEq, Repr

/-- The `EthGateway` interface, as answered during one pass of the engine. -/
structure EthGateway where
  GetMostRecentBlockNumber : GwResult Int
  GetTransactionsByBlockNumber : Int → GwResult (List TransactionModel)

/-! ## pkg/my_parser.go: the engine

`MyEthParser` holds the store and the gateway; its methods take them as
arguments. -/

/-- Calls issued by the engine, in program order. -/
inductive Event where
  | getMostRecentBlockNumber
  | getTransactionsByBlockNumber (block : Int)
  | saveTransaction (address : String) (tx : TransactionModel)
  | updateLatestBlock (block : Int)
  | sleep (seconds : Nat)
deriving DecidableEq, Repr

/-- The store together with the calls issued so far. -/
structure Engine where
  dao : InMemoryDao
  trace : List Event

namespace Engine

/-- The engine calls `p.dao.SaveTransaction`. -/
def save (e : Engine) (address : String) (tx : TransactionModel) : Engine :=
  { dao := e.dao.SaveTransaction address tx,
    trace := e.trace ++ [Event.saveTransaction address tx] }

/-- The engine calls `p.dao.UpdateLatestBlock`. -/
def setLatest (e : Engine) (block : Int) : Engine :=
  { dao := e.dao.UpdateLatestBlock block,
    trace := e.trace ++ [Event.updateLatestBlock block] }

/-- Append one event to the record of calls. -/
def log (e : Engine) (ev : Event) : Engine :=
  { e with trace := e.trace ++ [ev] }

end Engine

namespace MyEthParser

/-- Body of `for _, tx := range transactions` (lines 88-97): the sender test
and append, then the recipient test and append. -/
def saveMatching (subscribedAddresses : String → Bool) (e : Engine)
    (tx : TransactionModel) : Engine :=
  let e1 := if subscribedAddresses tx.From then e.save tx.From tx else e
  if subscribedAddresses tx.To then e1.save tx.To tx else e1

/-- The loop `for _, tx := range transactions`. -/
def saveBlock (subscribedAddresses : String → Bool) (e : Engine)
    (transactions : List TransactionModel) : Engine :=
  transactions.foldl (saveMatching subscribedAddresses) e

/-- How the block loop ended. -/
inductive LoopExit where
  | completed
  | fetchError
  | panicked (r : String)
  | outOfFuel
deriving DecidableEq, Repr

/-- The loop `for blockNumber := lastSyncedBlockNumber; blockNumber <=
latestBlockNumber; blockNumber++` (lines 74-101), one iteration per unit of
fuel. -/
def blockLoop (gw : EthGateway) (subscribedAddresses : String → Bool)
    (latestBlockNumber : Int) : Nat → Int → Engine → Engine × LoopExit
  | 0, _, e => (e, LoopExit.outOfFuel)
  | fuel + 1, blockNumber, e =>
    if blockNumber ≤ latestBlockNumber then
      let e1 := e.log (Event.getTransactionsByBlockNumber blockNumber)
      match gw.GetTransactionsByBlockNumber blockNumber with
      | GwResult.panic r => (e1, LoopExit.panicked r)
      | GwResult.err _ => (e1, LoopExit.fetchError)
      | GwResult.ok transactions =>
        let e2 := saveBlock subscribedAddresses e1 transactions
        let e3 := e2.setLatest blockNumber
        blockLoop gw subscribedAddresses latestBlockNumber fuel
          (wrapInt (blockNumber + 1)) e3
    else (e, LoopExit.completed)

/-- How one iteration of the outer `for` of `update` ended. -/
inductive PassExit where
  | slept (seconds : Nat)
  | panicked (r : String)
  | outOfFuel
deriving DecidableEq, Repr

/-- One iteration of the outer `for` of `update` (lines 45-114), from the height
request to the sleep. -/
def updatePass (gw : EthGateway) (fuel : Nat) (e : Engine) : Engine × PassExit :=
  let e0 := e.log Event.getMostRecentBlockNumber
  match gw.GetMostRecentBlockNumber with
  | GwResult.panic r => (e0, PassExit.panicked r)
  | GwResult.err _ => ((e0.log (Event.sleep 1)), PassExit.slept 1)
  | GwResult.ok latestBlockNumber =>
    let lastSyncedBlockNumber := e0.dao.GetLatestBlock
    let subscribedAddresses := e0.dao.GetAllAddresses
    if latestBlockNumber ≠ lastSyncedBlockNumber then
      let start := if lastSyncedBlockNumber = 0 then latestBlockNumber
        else lastSyncedBlockNumber
      match blockLoop gw subscribedAddresses latestBlockNumber fuel start e0 with
      | (e1, LoopExit.completed) => (e1.log (Event.sleep 12), PassExit.slept 12)
      | (e1, LoopExit.fetchError) => (e1.log (Event.sleep 1), PassExit.slept 1)
      | (e1, LoopExit.panicked r) => (e1, PassExit.panicked r)
      | (e1, LoopExit.outOfFuel) => (e1, PassExit.outOfFuel)
    else (e0.log (Event.sleep 12), PassExit.slept 12)

/-- One pass of the engine over a store, recording the calls of this pass only. -/
def syncPass (gw : EthGateway) (fuel : Nat) (dao : InMemoryDao) : Engine × PassExit :=
  updatePass gw fuel { dao := dao, trace := [] }

/-- How `update` ended on a finite schedule of passes. -/
inductive UpdateExit where
  | running
  | recovered (r : String)
  | outOfFuel
deriving DecidableEq, Repr

/-- The function `update` (lines 32-116) run over a finite schedule: one
gateway behaviour per pass. A panic leaves the `for` loop for the deferred
`recover`, after which the function returns; the remaining passes do not run. -/
def update (fuel : Nat) : List EthGateway → Engine → Engine × UpdateExit
  | [], e => (e, UpdateExit.running)
  | gw :: rest, e =>
    match updatePass gw fuel e with
    | (e1, PassExit.slept _) => update fuel rest e1
    | (e1, PassExit.panicked r) => (e1, UpdateExit.recovered r)
    | (e1, PassExit.outOfFuel) => (e1, UpdateExit.outOfFuel)

/-! ## pkg/my_parser.go: the facade -/

/-- Method `GetCurrentBlock`: the store's watermark. -/
def GetCurrentBlock (dao : InMemoryDao) : Int := dao.GetLatestBlock

/-- Method `Subscribe`: the new store and the returned boolean. -/
def Subscribe (dao : InMemoryDao) (address : String) : InMemoryDao × Bool :=
  (dao.CreateAddress (ToLower address), true)

/-- The struct literal of `GetTransactions` (lines 134-148). -/
def toTransaction (tx : TransactionModel) : Transaction :=
  { BlockHash := tx.BlockHash,
    BlockNumber := tx.BlockNumber,
    From := tx.From,
    Gas := tx.Gas,
    GasPrice := tx.GasPrice,
    Hash := tx.Hash,
    Input := tx.Input,
    Nonce := tx.Nonce,
    To := tx.To,
    TransactionIndex := tx.TransactionIndex,
    Value := tx.Value,
    TxType := tx.TxType,
    ChainId := tx.ChainId }

/-- Method `GetTransactions`: append the projection of every record of the
store's log for the lower-cased address. -/
def GetTransactions (dao : InMemoryDao) (address : String) : List Transaction :=
  (dao.GetTransactions (ToLower address)).foldl
    (fun transactions tx => transactions ++ [toTransaction tx]) []

end MyEthParser

open MyEthParser

/-! ## internal/gateway.go: `CloudflareEthGateway.GetMostRecentBlockNumber`

The HTTP round trip (`gw.post`) and `json.Unmarshal` are library calls: their
outcome is the input (`HeightResponse`). What the method does with the decoded
`result` string, the slice `[2:]` and `strconv.ParseInt(_, 16, 64)`, is
modelled on the bytes of the string. -/

/-- UTF-8 encoding of one character, as byte values. -/
def utf8Char (c : Char) : List Nat :=
  let n := c.toNat
  if n < 128 then [n]
  else if n < 2048 then [192 + n / 64, 128 + n % 64]
  else if n < 65536 then [224 + n / 4096, 128 + n / 64 % 64, 128 + n % 64]
  else [240 + n / 262144, 128 + n / 4096 % 64, 128 + n / 64 % 64, 128 + n % 64]

/-- The bytes of a Go string. -/
def goBytes (s : String) : List Nat := s.data.flatMap utf8Char

/-- Value of a byte as a hexadecimal digit (`0`..`9`, `a`..`f`, `A`..`F`). -/
def hexDigit (c : Nat) : Option Nat :=
  if 48 ≤ c ∧ c ≤ 57 then some (c - 48)
  else if 97 ≤ c ∧ c ≤ 102 then some (c - 87)
  else if 65 ≤ c ∧ c ≤ 70 then some (c - 55)
  else none

namespace strconv

/-- Go `strconv.ParseUint(s, 16, 64)`, `none` for every error: the empty string,
a byte that is not a hexadecimal digit, a value of `2 ^ 64` or more. -/
def ParseUint (s : List Nat) : Option Nat :=
  if s = [] then none
  else
    match s.foldl (fun acc c =>
        match acc, hexDigit c with
        | some n, some d => some (n * 16 + d)
        | _, _ => none) (some 0) with
    | some n => if n < 2 ^ 64 then some n else none
    | none => none

/-- Go `strconv.ParseInt(s, 16, 64)`, `none` for every error: an optional sign,
then `ParseUint`, then the range check against `2 ^ 63`. -/
def ParseInt (s : List Nat) : Option Int :=
  match s with
  | [] => none
  | c :: rest =>
    let neg := decide (c = 45)
    let digits := if c = 43 ∨ c = 45 then rest else s
    match ParseUint digits with
    | none => none
    | some un =>
      if neg = false ∧ 2 ^ 63 ≤ un then none
      else if neg = true ∧ 2 ^ 63 < un then none
      else some (if neg then -(un : Int) else (un : Int))

end strconv

/-- What `gw.post` and `json.Unmarshal` hand to `GetMostRecentBlockNumber`: an
error of the round trip, an error of the decoding, or the decoded `result`
string (empty when the body has no `result` member or a `null` one). -/
inductive HeightResponse where
  | postError (e : String)
  | unmarshalError (e : String)
  | decoded (BlockNumberHex : String)
deriving DecidableEq, Repr

namespace CloudflareEthGateway

/-- Method `GetMostRecentBlockNumber` (gateway.go lines 41-71). The slice
`resp.BlockNumberHex[2:]` panics when the string has fewer than two bytes. -/
def GetMostRecentBlockNumber (resp : HeightResponse) : GwResult Int :=
  match resp with
  | HeightResponse.postError e => GwResult.err e
  | HeightResponse.unmarshalError e => GwResult.err e
  | HeightResponse.decoded BlockNumberHex =>
    if (goBytes BlockNumberHex).length < 2 then
      GwResult.panic "runtime error: slice bounds out of range"
    else
      match strconv.ParseInt ((goBytes BlockNumberHex).drop 2) with
      | none => GwResult.err "failed to parse the result"
      | some blockNumber => GwResult.ok blockNumber

end CloudflareEthGateway

/-! ## Reading the record of calls -/

/-- Block numbers of the `GetTransactionsByBlockNumber` calls, in order. -/
def fetchedBlocks (t : List Event) : List Int :=
  t.filterMap fun ev =>
    match ev with
    | Event.getTransactionsByBlockNumber b => some b
    | _ => none

/-- Block numbers of the `UpdateLatestBlock` calls, in order. -/
def updatedBlocks (t : List Event) : List Int :=
  t.filterMap fun ev =>
    match ev with
    | Event.updateLatestBlock b => some b
    | _ => none

/-- Records of the `SaveTransaction` calls issued under `address`, in order. -/
def savedUnder (address : String) (t : List Event) : List TransactionModel :=
  t.filterMap fun ev =>
    match ev with
    | Event.saveTransaction a tx => if a = address then some tx else none
    | _ => none

/-- Effect of one recorded call on the store. -/
def applyEvent (dao : InMemoryDao) (ev : Event) : InMemoryDao :=
  match ev with
  | Event.saveTransaction a tx => dao.SaveTransaction a tx
  | Event.updateLatestBlock b => dao.UpdateLatestBlock b
  | _ => dao

/-- Effect of a list of recorded calls on the store. -/
def replay (dao : InMemoryDao) (t : List Event) : InMemoryDao :=
  t.foldl applyEvent dao

/-- Appends the engine issues for one transaction under a snapshot: one for the
sender if subscribed, then one for the recipient if subscribed. -/
def txEvents (subscribedAddresses : String → Bool) (tx : TransactionModel) :
    List Event :=
  (if subscribedAddresses tx.From then [Event.saveTransaction tx.From tx] else []) ++
  (if subscribedAddresses tx.To then [Event.saveTransaction tx.To tx] else [])

/-- Appends the engine issues for the transactions of one block. -/
def saveEvents (subscribedAddresses : String → Bool)
    (transactions : List TransactionModel) : List Event :=
  transactions.flatMap (txEvents subscribedAddresses)

/-- Calls of one loop iteration whose fetch succeeded: the fetch, the appends,
the watermark update. -/
def blockEvents (subscribedAddresses : String → Bool) (block : Int)
    (transactions : List TransactionModel) : List Event :=
  Event.getTransactionsByBlockNumber block ::
    (saveEvents subscribedAddresses transactions ++ [Event.updateLatestBlock block])

/-- Transactions the gateway returns for a block, empty when the fetch fails. -/
def okTxs (gw : EthGateway) (block : Int) : List TransactionModel :=
  match gw.GetTransactionsByBlockNumber block with
  | GwResult.ok transactions => transactions
  | _ => []

/-- Calls issued by `blockLoop`, and how it ends, without the store. -/
def loopTrace (gw : EthGateway) (subscribedAddresses : String → Bool)
    (latestBlockNumber : Int) : Nat → Int → List Event × LoopExit
  | 0, _ => ([], LoopExit.outOfFuel)
  | fuel + 1, blockNumber =>
    if blockNumber ≤ latestBlockNumber then
      match gw.GetTransactionsByBlockNumber blockNumber with
      | GwResult.panic r =>
        ([Event.getTransactionsByBlockNumber blockNumber], LoopExit.panicked r)
      | GwResult.err _ =>
        ([Event.getTransactionsByBlockNumber blockNumber], LoopExit.fetchError)
      | GwResult.ok transactions =>
        let r := loopTrace gw subscribedAddresses latestBlockNumber fuel
          (wrapInt (blockNumber + 1))
        (blockEvents subscribedAddresses blockNumber transactions ++ r.1, r.2)
    else ([], LoopExit.completed)

/-- The blocks `lo, lo+1, ..., lo+n-1`. -/
def intRange (lo : Int) (n : Nat) : List Int :=
  (List.range n).map fun (i : Nat) => lo + (i : Int)

/-- Entries a transaction contributes to the log of `address` under a snapshot
that contains `address`: one as sender, one as recipient. -/
def entriesFor (address : String) (tx : TransactionModel) : List TransactionModel :=
  (if tx.From = address then [tx] else []) ++ (if tx.To = address then [tx] else [])

/-- End of a pass after the block loop: the sleep that follows it and the way
the pass ends. -/
def passEnd : LoopExit → List Event × PassExit
  | LoopExit.completed => ([Event.sleep 12], PassExit.slept 12)
  | LoopExit.fetchError => ([Event.sleep 1], PassExit.slept 1)
  | LoopExit.panicked r => ([], PassExit.panicked r)
  | LoopExit.outOfFuel => ([], PassExit.outOfFuel)

/-- Calls issued by `updatePass`, and how it ends, without the store. -/
def passTrace (gw : EthGateway) (fuel : Nat) (dao : InMemoryDao) : List Event × PassExit :=
  match gw.GetMostRecentBlockNumber with
  | GwResult.panic r => ([Event.getMostRecentBlockNumber], PassExit.panicked r)
  | GwResult.err _ => ([Event.getMostRecentBlockNumber, Event.sleep 1], PassExit.slept 1)
  | GwResult.ok latestBlockNumber =>
    if latestBlockNumber ≠ dao.latestBlock then
      let start := if dao.latestBlock = 0 then latestBlockNumber else dao.latestBlock
      let r := loopTrace gw dao.GetAllAddresses latestBlockNumber fuel start
      (Event.getMostRecentBlockNumber :: (r.1 ++ (passEnd r.2).1), (passEnd r.2).2)
    else ([Event.getMostRecentBlockNumber, Event.sleep 12], PassExit.slept 12)

/-- Every watermark update recorded in `t` comes right after the fetch of its
block and the appends of that block's transactions under the snapshot. -/
def UpdatesFollowAppends (gw : EthGateway) (subs : String → Bool) (t : List Event) : Prop :=
  ∀ pre post b, t = pre ++ Event.updateLatestBlock b :: post →
    ∃ pre0, pre = pre0 ++
      Event.getTransactionsByBlockNumber b :: saveEvents subs (okTxs gw b)

/-! ## Concrete inputs -/

/-- A record with the given hash, sender and recipient; the other fields empty. -/
def mkTx (hash sender recipient : String) : TransactionModel :=
  { BlockHash := "", BlockNumber := "", From := sender, Gas := "", GasPrice := "",
    MaxPriorityFeePerGas := "", MaxFeePerGas := "", MaxFeePerBlobGas := "", Hash := hash,
    Input := "", Nonce := "", To := recipient, TransactionIndex := "", Value := "",
    TxType := "", AccessList := [], ChainId := "", V := "", R := "", S := "",
    BlobVersionedHashes := [] }

/-- A store with the given watermark and the given addresses subscribed, all
logs empty. -/
def storeAt (watermark : Int) (addresses : List String) : InMemoryDao :=
  { latestBlock := watermark, m := fun k => if k ∈ addresses then some [] else none }

/-- A gateway that reports `height` and answers every fetch with `blocks`. -/
def gatewayOk (height : Int) (blocks : Int → List TransactionModel) : EthGateway :=
  { GetMostRecentBlockNumber := GwResult.ok height,
    GetTransactionsByBlockNumber := fun b => GwResult.ok (blocks b) }

/-- A gateway that reports `height`, fails the fetch of block `bad` and answers
every other fetch with `blocks`. -/
def gatewayFailingAt (height bad : Int) (blocks : Int → List TransactionModel) :
    EthGateway :=
  { GetMostRecentBlockNumber := GwResult.ok height,
    GetTransactionsByBlockNumber := fun b =>
      if b = bad then GwResult.err "timeout" else GwResult.ok (blocks b) }

/-- Block contents in which block 100 holds one transfer from `0xa` to `0xb` and
every other block is empty. -/
def blocks100 : Int → List TransactionModel :=
  fun b => if b = 100 then [mkTx "0xh1" "0xa" "0xb"] else []

/-- Block contents in which block `maxInt` holds a transfer `0xh1` sent by `0xa`,
block `minInt` holds a transfer `0xh2` sent by `0xa`, and every other block is
empty. -/
def blocksAtWrap : Int → List TransactionModel :=
  fun b => if b = maxInt then [mkTx "0xh1" "0xa" "0xb"]
    else if b = minInt then [mkTx "0xh2" "0xa" "0xb"] else []

/-- A gateway whose height request fails; every fetch would be answered with an
empty block. -/
def gatewayHeightError : EthGateway :=
  { GetMostRecentBlockNumber := GwResult.err "timeout",
    GetTransactionsByBlockNumber := fun _ => GwResult.ok [] }

/-- A gateway that reports `height` and panics in the fetch of block `bad`; every
other fetch is answered with `blocks`. -/
def gatewayPanickingAt (height bad : Int) (blocks : Int → List TransactionModel) :
    EthGateway :=
  { GetMostRecentBlockNumber := GwResult.ok height,
    GetTransactionsByBlockNumber := fun b =>
      if b = bad then GwResult.panic "runtime error" else GwResult.ok (blocks b) }

/-! ## Store lemmas -/

namespace InMemoryDao

theorem getTransactions_eq_mapGet (dao : InMemoryDao) (a : String) :
    dao.GetTransactions a = mapGet dao.m a := by
  unfold GetTransactions mapGet
  cases h : dao.m a <;> simp

theorem saveTransaction_m (dao : InMemoryDao) (a : String) (tx : TransactionModel)
    (k : String) :
    (dao.SaveTransaction a tx).m k =
      if k = a then some (mapGet dao.m a ++ [tx]) else dao.m k := by
  unfold SaveTransaction
  cases h : dao.m a <;> by_cases hk : k = a <;> simp [mapSet, mapGet, h, hk]

theorem saveTransaction_latestBlock (dao : InMemoryDao) (a : String)
    (tx : TransactionModel) : (dao.SaveTransaction a tx).latestBlock = dao.latestBlock :=
  rfl

theorem getTransactions_saveTransaction (dao : InMemoryDao) (a : String)
    (tx : TransactionModel) (k : String) :
    (dao.SaveTransaction a tx).GetTransactions k =
      if k = a then dao.GetTransactions a ++ [tx] else dao.GetTransactions k := by
  simp only [getTransactions_eq_mapGet]
  by_cases hk : k = a
  · subst hk
    simp [mapGet, saveTransaction_m]
  · simp [mapGet, saveTransaction_m, hk]

theorem isSome_saveTransaction (dao : InMemoryDao) (a : String) (tx : TransactionModel)
    (k : String) :
    ((dao.SaveTransaction a tx).m k).isSome = (decide (k = a) || (dao.m k).isSome) := by
  rw [saveTransaction_m]
  by_cases hk : k = a <;> simp [hk]

end InMemoryDao

/-! ## Replaying recorded calls -/

theorem replay_append (dao : InMemoryDao) (s t : List Event) :
    replay dao (s ++ t) = replay (replay dao s) t := by
  simp [replay, List.foldl_append]

theorem savedUnder_append (a : String) (s t : List Event) :
    savedUnder a (s ++ t) = savedUnder a s ++ savedUnder a t := by
  simp [savedUnder, List.filterMap_append]

theorem updatedBlocks_append (s t : List Event) :
    updatedBlocks (s ++ t) = updatedBlocks s ++ updatedBlocks t := by
  simp [updatedBlocks, List.filterMap_append]

theorem fetchedBlocks_append (s t : List Event) :
    fetchedBlocks (s ++ t) = fetchedBlocks s ++ fetchedBlocks t := by
  simp [fetchedBlocks, List.filterMap_append]

theorem getTransactions_replay (t : List Event) (dao : InMemoryDao) (a : String) :
    (replay dao t).GetTransactions a = dao.GetTransactions a ++ savedUnder a t := by
  induction t generalizing dao with
  | nil => simp [replay, savedUnder]
  | cons ev t ih =>
    have hcons : replay dao (ev :: t) = replay (applyEvent dao ev) t := rfl
    rw [hcons, ih]
    cases ev with
    | saveTransaction a2 tx =>
      simp only [applyEvent, InMemoryDao.getTransactions_saveTransaction]
      by_cases h : a = a2
      · subst h
        simp [savedUnder]
      · have h2 : ¬ a2 = a := fun h3 => h h3.symm
        simp [savedUnder, h, h2]
    | updateLatestBlock b =>
      simp [applyEvent, savedUnder, InMemoryDao.UpdateLatestBlock,
        InMemoryDao.GetTransactions]
    | getMostRecentBlockNumber => simp [applyEvent, savedUnder]
    | getTransactionsByBlockNumber b => simp [applyEvent, savedUnder]
    | sleep n => simp [applyEvent, savedUnder]

theorem latestBlock_replay (t : List Event) (dao : InMemoryDao) :
    (replay dao t).latestBlock = ((updatedBlocks t).getLast?).getD dao.latestBlock := by
  induction t generalizing dao with
  | nil => simp [replay, updatedBlocks]
  | cons ev t ih =>
    have hcons : replay dao (ev :: t) = replay (applyEvent dao ev) t := rfl
    rw [hcons, ih]
    cases ev with
    | saveTransaction a2 tx =>
      simp [applyEvent, updatedBlocks, InMemoryDao.saveTransaction_latestBlock]
    | updateLatestBlock b =>
      have hu : updatedBlocks (Event.updateLatestBlock b :: t) = b :: updatedBlocks t := by
        simp [updatedBlocks]
      rw [hu]
      cases hl : updatedBlocks t with
      | nil => simp [applyEvent, InMemoryDao.UpdateLatestBlock]
      | cons x xs =>
        rw [List.getLast?_cons_cons, List.getLast?_eq_getLast _ (List.cons_ne_nil x xs)]
        simp
    | getMostRecentBlockNumber => simp [applyEvent, updatedBlocks]
    | getTransactionsByBlockNumber b => simp [applyEvent, updatedBlocks]
    | sleep n => simp [applyEvent, updatedBlocks]

/-! ## The engine's loops as recorded calls -/

theorem saveMatching_eq (subs : String → Bool) (e : Engine) (tx : TransactionModel) :
    saveMatching subs e tx =
      { dao := replay e.dao (txEvents subs tx), trace := e.trace ++ txEvents subs tx } := by
  cases e with
  | mk dao trace =>
    unfold saveMatching txEvents
    by_cases hf : subs tx.From = true <;> by_cases ht : subs tx.To = true <;>
      simp [hf, ht, Engine.save, replay, applyEvent]

theorem saveBlock_eq (subs : String → Bool) (txs : List TransactionModel) (e : Engine) :
    saveBlock subs e txs =
      { dao := replay e.dao (saveEvents subs txs), trace := e.trace ++ saveEvents subs txs } := by
  induction txs generalizing e with
  | nil =>
    cases e
    simp [saveBlock, saveEvents, replay]
  | cons tx txs ih =>
    have hstep : saveBlock subs e (tx :: txs) = saveBlock subs (saveMatching subs e tx) txs := rfl
    rw [hstep, ih, saveMatching_eq]
    simp [saveEvents, replay_append, List.append_assoc]

theorem blockLoop_eq (gw : EthGateway) (subs : String → Bool) (latest : Int) (fuel : Nat)
    (b : Int) (e : Engine) :
    blockLoop gw subs latest fuel b e =
      ({ dao := replay e.dao (loopTrace gw subs latest fuel b).1,
         trace := e.trace ++ (loopTrace gw subs latest fuel b).1 },
       (loopTrace gw subs latest fuel b).2) := by
  induction fuel generalizing b e with
  | zero =>
    cases e
    simp [blockLoop, loopTrace, replay]
  | succ fuel ih =>
    unfold blockLoop loopTrace
    by_cases hb : b ≤ latest
    · simp only [hb, if_true]
      cases hg : gw.GetTransactionsByBlockNumber b with
      | panic r => simp [Engine.log, replay, applyEvent]
      | err msg => simp [Engine.log, replay, applyEvent]
      | ok txs =>
        simp only [ih, saveBlock_eq]
        simp [Engine.log, Engine.setLatest, blockEvents, replay_append, replay, applyEvent,
          List.append_assoc]
    · cases e
      simp [hb, replay]

theorem replay_cons (dao : InMemoryDao) (ev : Event) (t : List Event) :
    replay dao (ev :: t) = replay (applyEvent dao ev) t := rfl

theorem updatePass_eq (gw : EthGateway) (fuel : Nat) (e : Engine) :
    updatePass gw fuel e =
      ({ dao := replay e.dao (passTrace gw fuel e.dao).1,
         trace := e.trace ++ (passTrace gw fuel e.dao).1 },
       (passTrace gw fuel e.dao).2) := by
  cases e with
  | mk dao trace =>
    unfold updatePass passTrace
    cases hg : gw.GetMostRecentBlockNumber with
    | panic r => simp [Engine.log, replay, applyEvent]
    | err msg => simp [Engine.log, replay, applyEvent]
    | ok latest =>
      by_cases hne : latest = dao.latestBlock
      · simp [hne, Engine.log, replay, applyEvent, InMemoryDao.GetLatestBlock]
      · simp only [Engine.log, InMemoryDao.GetLatestBlock, ne_eq, hne, not_false_eq_true,
          if_true, blockLoop_eq]
        generalize loopTrace gw dao.GetAllAddresses latest fuel
          (if dao.latestBlock = 0 then latest else dao.latestBlock) = r
        obtain ⟨t, ex⟩ := r
        cases ex <;>
          simp [passEnd, replay_cons, replay_append, applyEvent, replay, List.append_assoc]

theorem syncPass_eq (gw : EthGateway) (fuel : Nat) (dao : InMemoryDao) :
    syncPass gw fuel dao =
      ({ dao := replay dao (passTrace gw fuel dao).1, trace := (passTrace gw fuel dao).1 },
       (passTrace gw fuel dao).2) := by
  simp [syncPass, updatePass_eq]

/-! ## Go integers -/

theorem wrapInt_eq (x : Int) (hlo : minInt ≤ x) (hhi : x ≤ maxInt) : wrapInt x = x := by
  unfold wrapInt
  unfold minInt at hlo
  unfold maxInt at hhi
  norm_num at hlo hhi ⊢
  omega

theorem wrapInt_succ_maxInt : wrapInt (maxInt + 1) = minInt := by decide

/-! ## Projections of the recorded calls -/

theorem fetchedBlocks_txEvents (subs : String → Bool) (tx : TransactionModel) :
    fetchedBlocks (txEvents subs tx) = [] := by
  unfold txEvents fetchedBlocks
  by_cases hf : subs tx.From = true <;> by_cases ht : subs tx.To = true <;> simp [hf, ht]

theorem updatedBlocks_txEvents (subs : String → Bool) (tx : TransactionModel) :
    updatedBlocks (txEvents subs tx) = [] := by
  unfold txEvents updatedBlocks
  by_cases hf : subs tx.From = true <;> by_cases ht : subs tx.To = true <;> simp [hf, ht]

theorem fetchedBlocks_saveEvents (subs : String → Bool) (txs : List TransactionModel) :
    fetchedBlocks (saveEvents subs txs) = [] := by
  induction txs with
  | nil => simp [saveEvents, fetchedBlocks]
  | cons tx txs ih =>
    have hc : saveEvents subs (tx :: txs) = txEvents subs tx ++ saveEvents subs txs := by
      simp [saveEvents]
    rw [hc, fetchedBlocks_append, fetchedBlocks_txEvents, ih]
    rfl

theorem updatedBlocks_saveEvents (subs : String → Bool) (txs : List TransactionModel) :
    updatedBlocks (saveEvents subs txs) = [] := by
  induction txs with
  | nil => simp [saveEvents, updatedBlocks]
  | cons tx txs ih =>
    have hc : saveEvents subs (tx :: txs) = txEvents subs tx ++ saveEvents subs txs := by
      simp [saveEvents]
    rw [hc, updatedBlocks_append, updatedBlocks_txEvents, ih]
    rfl

theorem fetchedBlocks_cons_fetch (b : Int) (t : List Event) :
    fetchedBlocks (Event.getTransactionsByBlockNumber b :: t) = b :: fetchedBlocks t := by
  simp [fetchedBlocks]

theorem updatedBlocks_cons_fetch (b : Int) (t : List Event) :
    updatedBlocks (Event.getTransactionsByBlockNumber b :: t) = updatedBlocks t := by
  simp [updatedBlocks]

theorem fetchedBlocks_cons_height (t : List Event) :
    fetchedBlocks (Event.getMostRecentBlockNumber :: t) = fetchedBlocks t := by
  simp [fetchedBlocks]

theorem updatedBlocks_cons_height (t : List Event) :
    updatedBlocks (Event.getMostRecentBlockNumber :: t) = updatedBlocks t := by
  simp [updatedBlocks]

theorem fetchedBlocks_blockEvents (subs : String → Bool) (b : Int)
    (txs : List TransactionModel) : fetchedBlocks (blockEvents subs b txs) = [b] := by
  unfold blockEvents
  rw [fetchedBlocks_cons_fetch, fetchedBlocks_append, fetchedBlocks_saveEvents]
  simp [fetchedBlocks]

theorem updatedBlocks_blockEvents (subs : String → Bool) (b : Int)
    (txs : List TransactionModel) : updatedBlocks (blockEvents subs b txs) = [b] := by
  unfold blockEvents
  rw [updatedBlocks_cons_fetch, updatedBlocks_append, updatedBlocks_saveEvents]
  simp [updatedBlocks]

theorem fetchedBlocks_passEnd (ex : LoopExit) : fetchedBlocks (passEnd ex).1 = [] := by
  cases ex <;> simp [passEnd, fetchedBlocks]

theorem updatedBlocks_passEnd (ex : LoopExit) : updatedBlocks (passEnd ex).1 = [] := by
  cases ex <;> simp [passEnd, updatedBlocks]

/-! ## Unfolding the block loop -/

theorem loopTrace_ok (gw : EthGateway) (subs : String → Bool) (latest : Int) (fuel : Nat)
    (b : Int) (txs : List TransactionModel) (hb : b ≤ latest)
    (hg : gw.GetTransactionsByBlockNumber b = GwResult.ok txs) :
    loopTrace gw subs latest (fuel + 1) b =
      (blockEvents subs b txs ++ (loopTrace gw subs latest fuel (wrapInt (b + 1))).1,
       (loopTrace gw subs latest fuel (wrapInt (b + 1))).2) := by
  rw [loopTrace]
  simp [hb, hg]

theorem loopTrace_err (gw : EthGateway) (subs : String → Bool) (latest : Int) (fuel : Nat)
    (b : Int) (msg : String) (hb : b ≤ latest)
    (hg : gw.GetTransactionsByBlockNumber b = GwResult.err msg) :
    loopTrace gw subs latest (fuel + 1) b =
      ([Event.getTransactionsByBlockNumber b], LoopExit.fetchError) := by
  rw [loopTrace]
  simp [hb, hg]

theorem loopTrace_panic (gw : EthGateway) (subs : String → Bool) (latest : Int) (fuel : Nat)
    (b : Int) (r : String) (hb : b ≤ latest)
    (hg : gw.GetTransactionsByBlockNumber b = GwResult.panic r) :
    loopTrace gw subs latest (fuel + 1) b =
      ([Event.getTransactionsByBlockNumber b], LoopExit.panicked r) := by
  rw [loopTrace]
  simp [hb, hg]

theorem loopTrace_done (gw : EthGateway) (subs : String → Bool) (latest : Int) (fuel : Nat)
    (b : Int) (hb : latest < b) :
    loopTrace gw subs latest (fuel + 1) b = ([], LoopExit.completed) := by
  rw [loopTrace]
  simp [not_le.mpr hb]

theorem passTrace_ok (gw : EthGateway) (fuel : Nat) (dao : InMemoryDao) (latest : Int)
    (hg : gw.GetMostRecentBlockNumber = GwResult.ok latest) (hne : latest ≠ dao.latestBlock) :
    passTrace gw fuel dao =
      (Event.getMostRecentBlockNumber ::
        ((loopTrace gw dao.GetAllAddresses latest fuel
            (if dao.latestBlock = 0 then latest else dao.latestBlock)).1 ++
          (passEnd (loopTrace gw dao.GetAllAddresses latest fuel
            (if dao.latestBlock = 0 then latest else dao.latestBlock)).2).1),
       (passEnd (loopTrace gw dao.GetAllAddresses latest fuel
            (if dao.latestBlock = 0 then latest else dao.latestBlock)).2).2) := by
  unfold passTrace
  simp [hg, hne]

/-! ## Structure of the block loop's calls -/

theorem intRange_zero (lo : Int) : intRange lo 0 = [] := rfl

theorem intRange_succ (lo : Int) (n : Nat) :
    intRange lo (n + 1) = lo :: intRange (lo + 1) n := by
  unfold intRange
  rw [List.range_succ_eq_map]
  simp [Function.comp_def]
  intro a _
  ring

theorem mem_intRange (lo : Int) (n : Nat) (x : Int) :
    x ∈ intRange lo n ↔ lo ≤ x ∧ x < lo + n := by
  unfold intRange
  simp only [List.mem_map, List.mem_range]
  constructor
  · rintro ⟨i, hi, rfl⟩
    omega
  · rintro ⟨h1, h2⟩
    refine ⟨(x - lo).toNat, ?_, ?_⟩
    all_goals omega

theorem okTxs_of_ok (gw : EthGateway) (b : Int) (txs : List TransactionModel)
    (hg : gw.GetTransactionsByBlockNumber b = GwResult.ok txs) : okTxs gw b = txs := by
  simp [okTxs, hg]

/-- Without wrap-around the watermark updates of the block loop are those of
consecutive blocks starting at the first one. -/
theorem loopTrace_updated_range (gw : EthGateway) (subs : String → Bool) (latest : Int)
    (hhi : latest < maxInt) (fuel : Nat) (b : Int) (hlo : minInt ≤ b) :
    ∃ k : Nat, updatedBlocks (loopTrace gw subs latest fuel b).1 = intRange b k ∧
      (k = 0 ∨ b + k ≤ latest + 1) := by
  induction fuel generalizing b with
  | zero => exact ⟨0, by simp [loopTrace, updatedBlocks, intRange], Or.inl rfl⟩
  | succ fuel ih =>
    by_cases hb : b ≤ latest
    · cases hg : gw.GetTransactionsByBlockNumber b with
      | panic r =>
        rw [loopTrace_panic gw subs latest fuel b r hb hg]
        exact ⟨0, by simp [updatedBlocks, intRange], Or.inl rfl⟩
      | err msg =>
        rw [loopTrace_err gw subs latest fuel b msg hb hg]
        exact ⟨0, by simp [updatedBlocks, intRange], Or.inl rfl⟩
      | ok txs =>
        rw [loopTrace_ok gw subs latest fuel b txs hb hg,
          wrapInt_eq (b + 1) (by omega) (by omega)]
        obtain ⟨k, hk, hk2⟩ := ih (b + 1) (by omega)
        refine ⟨k + 1, ?_, Or.inr ?_⟩
        · simp only [updatedBlocks_append, updatedBlocks_blockEvents, hk, intRange_succ]
          rfl
        · rcases hk2 with h0 | h1
          · subst h0
            simp
            omega
          · push_cast
            omega
    · rw [loopTrace_done gw subs latest fuel b (by omega)]
      exact ⟨0, by simp [updatedBlocks, intRange], Or.inl rfl⟩

/-- The calls of the block loop are, for each block whose watermark update was
issued, the fetch of the block, the appends of the block and the update, in
that order, followed by at most one failed fetch. -/
theorem loopTrace_segments (gw : EthGateway) (subs : String → Bool) (latest : Int)
    (fuel : Nat) (b : Int) :
    ∃ tail : List Event,
      (loopTrace gw subs latest fuel b).1 =
        (updatedBlocks (loopTrace gw subs latest fuel b).1).flatMap
          (fun x => blockEvents subs x (okTxs gw x)) ++ tail ∧
      (tail = [] ∨ ∃ x, tail = [Event.getTransactionsByBlockNumber x]) ∧
      ∀ x ∈ updatedBlocks (loopTrace gw subs latest fuel b).1,
        ∃ txs, gw.GetTransactionsByBlockNumber x = GwResult.ok txs := by
  induction fuel generalizing b with
  | zero => exact ⟨[], by simp [loopTrace, updatedBlocks], Or.inl rfl, by simp [loopTrace, updatedBlocks]⟩
  | succ fuel ih =>
    by_cases hb : b ≤ latest
    · cases hg : gw.GetTransactionsByBlockNumber b with
      | panic r =>
        rw [loopTrace_panic gw subs latest fuel b r hb hg]
        exact ⟨[Event.getTransactionsByBlockNumber b], by simp [updatedBlocks],
          Or.inr ⟨b, rfl⟩, by simp [updatedBlocks]⟩
      | err msg =>
        rw [loopTrace_err gw subs latest fuel b msg hb hg]
        exact ⟨[Event.getTransactionsByBlockNumber b], by simp [updatedBlocks],
          Or.inr ⟨b, rfl⟩, by simp [updatedBlocks]⟩
      | ok txs =>
        rw [loopTrace_ok gw subs latest fuel b txs hb hg]
        obtain ⟨tail, h1, h2, h3⟩ := ih (wrapInt (b + 1))
        refine ⟨tail, ?_, h2, ?_⟩
        · simp only [updatedBlocks_append, updatedBlocks_blockEvents, List.singleton_append,
            List.flatMap_cons, okTxs_of_ok gw b txs hg, List.append_assoc]
          rw [← h1]
        · simp only [updatedBlocks_append, updatedBlocks_blockEvents, List.singleton_append,
            List.mem_cons]
          rintro x (rfl | hx)
          · exact ⟨txs, hg⟩
          · exact h3 x hx
    · rw [loopTrace_done gw subs latest fuel b (by omega)]
      exact ⟨[], by simp [updatedBlocks], Or.inl rfl, by simp [updatedBlocks]⟩

theorem savedUnder_txEvents (subs : String → Bool) (a : String) (tx : TransactionModel)
    (ha : subs a = true) : savedUnder a (txEvents subs tx) = entriesFor a tx := by
  unfold txEvents entriesFor savedUnder
  by_cases hf : tx.From = a <;> by_cases ht : tx.To = a <;>
    by_cases hsf : subs tx.From = true <;> by_cases hst : subs tx.To = true <;>
    simp_all

theorem savedUnder_txEvents_of_not (subs : String → Bool) (a : String) (tx : TransactionModel)
    (ha : subs a = false) : savedUnder a (txEvents subs tx) = [] := by
  unfold txEvents savedUnder
  by_cases hf : tx.From = a <;> by_cases ht : tx.To = a <;>
    by_cases hsf : subs tx.From = true <;> by_cases hst : subs tx.To = true <;>
    simp_all

theorem savedUnder_saveEvents (subs : String → Bool) (a : String)
    (txs : List TransactionModel) (ha : subs a = true) :
    savedUnder a (saveEvents subs txs) = txs.flatMap (entriesFor a) := by
  induction txs with
  | nil => simp [saveEvents, savedUnder]
  | cons tx txs ih =>
    have hc : saveEvents subs (tx :: txs) = txEvents subs tx ++ saveEvents subs txs := by
      simp [saveEvents]
    rw [hc, savedUnder_append, savedUnder_txEvents subs a tx ha, ih]
    simp

theorem savedUnder_saveEvents_of_not (subs : String → Bool) (a : String)
    (txs : List TransactionModel) (ha : subs a = false) :
    savedUnder a (saveEvents subs txs) = [] := by
  induction txs with
  | nil => simp [saveEvents, savedUnder]
  | cons tx txs ih =>
    have hc : saveEvents subs (tx :: txs) = txEvents subs tx ++ saveEvents subs txs := by
      simp [saveEvents]
    rw [hc, savedUnder_append, savedUnder_txEvents_of_not subs a tx ha, ih]
    rfl

theorem mem_updatedBlocks (t : List Event) (b : Int) :
    b ∈ updatedBlocks t ↔ Event.updateLatestBlock b ∈ t := by
  unfold updatedBlocks
  simp only [List.mem_filterMap]
  constructor
  · rintro ⟨ev, hev, h⟩
    cases ev <;> simp at h
    subst h
    exact hev
  · intro h
    exact ⟨_, h, rfl⟩

/-! ## Watermark updates come after the appends of their block -/

theorem updatesFollowAppends_of_no_update (gw : EthGateway) (subs : String → Bool)
    (t : List Event) (h : updatedBlocks t = []) : UpdatesFollowAppends gw subs t := by
  intro pre post b ht
  have hm : b ∈ updatedBlocks t := by
    rw [mem_updatedBlocks, ht]
    simp
  rw [h] at hm
  cases hm

theorem updatesFollowAppends_append (gw : EthGateway) (subs : String → Bool)
    (s t : List Event) (hs : UpdatesFollowAppends gw subs s)
    (ht : UpdatesFollowAppends gw subs t) : UpdatesFollowAppends gw subs (s ++ t) := by
  intro pre post b h
  rcases List.append_eq_append_iff.mp h with ⟨a, h1, h2⟩ | ⟨c, h1, h2⟩
  · obtain ⟨pre0, hp⟩ := ht a post b h2
    exact ⟨s ++ pre0, by rw [h1, hp, List.append_assoc]⟩
  · cases c with
    | nil =>
      obtain ⟨pre0, hp⟩ := ht [] post b (by simpa using h2.symm)
      cases pre0 <;> simp at hp
    | cons ev c =>
      simp only [List.cons_append, List.cons.injEq] at h2
      obtain ⟨rfl, _⟩ := h2
      exact hs pre c b h1

theorem updatesFollowAppends_blockEvents (gw : EthGateway) (subs : String → Bool) (b : Int) :
    UpdatesFollowAppends gw subs (blockEvents subs b (okTxs gw b)) := by
  intro pre post x h
  have hsplit : (Event.getTransactionsByBlockNumber b :: saveEvents subs (okTxs gw b)) ++
      [Event.updateLatestBlock b] = pre ++ Event.updateLatestBlock x :: post := by
    rw [← h]
    simp [blockEvents]
  have hno : updatedBlocks
      (Event.getTransactionsByBlockNumber b :: saveEvents subs (okTxs gw b)) = [] := by
    rw [updatedBlocks_cons_fetch, updatedBlocks_saveEvents]
  rcases List.eq_nil_or_concat post with hp | ⟨init, z, hp⟩
  · subst hp
    obtain ⟨h1, h2⟩ := List.append_inj' hsplit rfl
    simp only [List.cons.injEq, Event.updateLatestBlock.injEq, and_true] at h2
    subst h2
    exact ⟨[], by simp [← h1]⟩
  · exfalso
    rw [hp] at hsplit
    have h3 : (Event.getTransactionsByBlockNumber b :: saveEvents subs (okTxs gw b)) ++
        [Event.updateLatestBlock b] = (pre ++ Event.updateLatestBlock x :: init) ++ [z] := by
      rw [hsplit]
      simp
    obtain ⟨h4, _⟩ := List.append_inj' h3 rfl
    have hm : x ∈ updatedBlocks
        (Event.getTransactionsByBlockNumber b :: saveEvents subs (okTxs gw b)) := by
      rw [mem_updatedBlocks, h4]
      simp
    rw [hno] at hm
    cases hm

theorem updatesFollowAppends_loopTrace (gw : EthGateway) (subs : String → Bool)
    (latest : Int) (fuel : Nat) (b : Int) :
    UpdatesFollowAppends gw subs (loopTrace gw subs latest fuel b).1 := by
  induction fuel generalizing b with
  | zero => exact updatesFollowAppends_of_no_update gw subs _ (by simp [loopTrace, updatedBlocks])
  | succ fuel ih =>
    by_cases hb : b ≤ latest
    · cases hg : gw.GetTransactionsByBlockNumber b with
      | panic r =>
        rw [loopTrace_panic gw subs latest fuel b r hb hg]
        exact updatesFollowAppends_of_no_update gw subs _ (by simp [updatedBlocks])
      | err msg =>
        rw [loopTrace_err gw subs latest fuel b msg hb hg]
        exact updatesFollowAppends_of_no_update gw subs _ (by simp [updatedBlocks])
      | ok txs =>
        rw [loopTrace_ok gw subs latest fuel b txs hb hg]
        have hseg := updatesFollowAppends_blockEvents gw subs b
        rw [okTxs_of_ok gw b txs hg] at hseg
        exact updatesFollowAppends_append gw subs _ _ hseg (ih _)
    · rw [loopTrace_done gw subs latest fuel b (by omega)]
      exact updatesFollowAppends_of_no_update gw subs _ (by simp [updatedBlocks])

/-! ## Structure of a pass's calls -/

theorem passTrace_panic (gw : EthGateway) (fuel : Nat) (dao : InMemoryDao) (r : String)
    (hg : gw.GetMostRecentBlockNumber = GwResult.panic r) :
    passTrace gw fuel dao = ([Event.getMostRecentBlockNumber], PassExit.panicked r) := by
  unfold passTrace
  simp [hg]

theorem passTrace_err (gw : EthGateway) (fuel : Nat) (dao : InMemoryDao) (msg : String)
    (hg : gw.GetMostRecentBlockNumber = GwResult.err msg) :
    passTrace gw fuel dao =
      ([Event.getMostRecentBlockNumber, Event.sleep 1], PassExit.slept 1) := by
  unfold passTrace
  simp [hg]

theorem passTrace_same (gw : EthGateway) (fuel : Nat) (dao : InMemoryDao) (latest : Int)
    (hg : gw.GetMostRecentBlockNumber = GwResult.ok latest) (he : latest = dao.latestBlock) :
    passTrace gw fuel dao =
      ([Event.getMostRecentBlockNumber, Event.sleep 12], PassExit.slept 12) := by
  unfold passTrace
  simp [hg, he]

/-- The calls of a pass are the height request, the calls of the block loop (if
it runs) and at most one sleep. -/
theorem passTrace_shape (gw : EthGateway) (fuel : Nat) (dao : InMemoryDao) :
    ∃ loop tail : List Event,
      (passTrace gw fuel dao).1 = Event.getMostRecentBlockNumber :: (loop ++ tail) ∧
      (tail = [] ∨ ∃ n, tail = [Event.sleep n]) ∧
      (loop = [] ∨ ∃ latest, gw.GetMostRecentBlockNumber = GwResult.ok latest ∧
        latest ≠ dao.latestBlock ∧
        loop = (loopTrace gw dao.GetAllAddresses latest fuel
          (if dao.latestBlock = 0 then latest else dao.latestBlock)).1) := by
  cases hg : gw.GetMostRecentBlockNumber with
  | panic r =>
    exact ⟨[], [], by rw [passTrace_panic gw fuel dao r hg]; rfl, Or.inl rfl, Or.inl rfl⟩
  | err msg =>
    exact ⟨[], [Event.sleep 1], by rw [passTrace_err gw fuel dao msg hg]; rfl,
      Or.inr ⟨1, rfl⟩, Or.inl rfl⟩
  | ok latest =>
    by_cases he : latest = dao.latestBlock
    · exact ⟨[], [Event.sleep 12], by rw [passTrace_same gw fuel dao latest hg he]; rfl,
        Or.inr ⟨12, rfl⟩, Or.inl rfl⟩
    · refine ⟨_, _, by rw [passTrace_ok gw fuel dao latest hg he], ?_,
        Or.inr ⟨latest, rfl, he, rfl⟩⟩
      cases (loopTrace gw dao.GetAllAddresses latest fuel
        (if dao.latestBlock = 0 then latest else dao.latestBlock)).2
      · exact Or.inr ⟨12, rfl⟩
      · exact Or.inr ⟨1, rfl⟩
      · exact Or.inl rfl
      · exact Or.inl rfl

theorem updatedBlocks_tail (tail : List Event)
    (h : tail = [] ∨ ∃ n, tail = [Event.sleep n]) : updatedBlocks tail = [] := by
  rcases h with rfl | ⟨n, rfl⟩ <;> simp [updatedBlocks]

theorem fetchedBlocks_tail (tail : List Event)
    (h : tail = [] ∨ ∃ n, tail = [Event.sleep n]) : fetchedBlocks tail = [] := by
  rcases h with rfl | ⟨n, rfl⟩ <;> simp [fetchedBlocks]

theorem savedUnder_tail (a : String) (tail : List Event)
    (h : tail = [] ∨ ∃ n, tail = [Event.sleep n]) : savedUnder a tail = [] := by
  rcases h with rfl | ⟨n, rfl⟩ <;> simp [savedUnder]

theorem updatesFollowAppends_passTrace (gw : EthGateway) (fuel : Nat) (dao : InMemoryDao) :
    UpdatesFollowAppends gw dao.GetAllAddresses (passTrace gw fuel dao).1 := by
  obtain ⟨loop, tail, h1, h2, h3⟩ := passTrace_shape gw fuel dao
  rw [h1]
  have hcons : Event.getMostRecentBlockNumber :: (loop ++ tail) =
      [Event.getMostRecentBlockNumber] ++ (loop ++ tail) := rfl
  rw [hcons]
  apply updatesFollowAppends_append
  · exact updatesFollowAppends_of_no_update _ _ _ (by simp [updatedBlocks])
  · apply updatesFollowAppends_append
    · rcases h3 with rfl | ⟨latest, _, _, rfl⟩
      · exact updatesFollowAppends_of_no_update _ _ _ (by simp [updatedBlocks])
      · exact updatesFollowAppends_loopTrace _ _ _ _ _
    · exact updatesFollowAppends_of_no_update _ _ _ (updatedBlocks_tail tail h2)

theorem updatedBlocks_passTrace_ok (gw : EthGateway) (fuel : Nat) (dao : InMemoryDao) :
    ∀ x ∈ updatedBlocks (passTrace gw fuel dao).1,
      ∃ txs, gw.GetTransactionsByBlockNumber x = GwResult.ok txs := by
  obtain ⟨loop, tail, h1, h2, h3⟩ := passTrace_shape gw fuel dao
  rw [h1, updatedBlocks_cons_height, updatedBlocks_append, updatedBlocks_tail tail h2,
    List.append_nil]
  rcases h3 with rfl | ⟨latest, _, _, rfl⟩
  · simp [updatedBlocks]
  · obtain ⟨_, _, _, h⟩ := loopTrace_segments gw dao.GetAllAddresses latest fuel
      (if dao.latestBlock = 0 then latest else dao.latestBlock)
    exact h

/-- Without wrap-around the watermark updates of a pass are those of consecutive
blocks, starting at the watermark the pass started from or, on the first sync,
at the reported height. -/
theorem updatedBlocks_passTrace_range (gw : EthGateway) (fuel : Nat) (dao : InMemoryDao)
    (hrep : minInt ≤ dao.latestBlock)
    (hH : ∀ H, gw.GetMostRecentBlockNumber = GwResult.ok H → minInt ≤ H ∧ H < maxInt) :
    ∃ (start : Int) (k : Nat),
      (start = dao.latestBlock ∨
        (dao.latestBlock = 0 ∧ gw.GetMostRecentBlockNumber = GwResult.ok start)) ∧
      updatedBlocks (passTrace gw fuel dao).1 = intRange start k := by
  obtain ⟨loop, tail, h1, h2, h3⟩ := passTrace_shape gw fuel dao
  rw [h1, updatedBlocks_cons_height, updatedBlocks_append, updatedBlocks_tail tail h2,
    List.append_nil]
  rcases h3 with rfl | ⟨latest, hg, hne, rfl⟩
  · exact ⟨dao.latestBlock, 0, Or.inl rfl, by simp [updatedBlocks, intRange]⟩
  · obtain ⟨hlo, hlt⟩ := hH latest hg
    by_cases h0 : dao.latestBlock = 0
    · rw [if_pos h0]
      obtain ⟨k, hk, _⟩ := loopTrace_updated_range gw dao.GetAllAddresses latest hlt fuel latest
        hlo
      exact ⟨latest, k, Or.inr ⟨h0, hg⟩, hk⟩
    · rw [if_neg h0]
      obtain ⟨k, hk, _⟩ := loopTrace_updated_range gw dao.GetAllAddresses latest hlt fuel
        dao.latestBlock hrep
      exact ⟨dao.latestBlock, k, Or.inl rfl, hk⟩

/-- Appends under a snapshot address issued by the block loop: the entries of
the blocks whose watermark update was issued, block after block. -/
theorem savedUnder_loopTrace (gw : EthGateway) (subs : String → Bool) (latest : Int)
    (a : String) (ha : subs a = true) (fuel : Nat) (b : Int) :
    savedUnder a (loopTrace gw subs latest fuel b).1 =
      (updatedBlocks (loopTrace gw subs latest fuel b).1).flatMap
        (fun x => (okTxs gw x).flatMap (entriesFor a)) := by
  induction fuel generalizing b with
  | zero => simp [loopTrace, savedUnder, updatedBlocks]
  | succ fuel ih =>
    by_cases hb : b ≤ latest
    · cases hg : gw.GetTransactionsByBlockNumber b with
      | panic r =>
        rw [loopTrace_panic gw subs latest fuel b r hb hg]
        simp [savedUnder, updatedBlocks]
      | err msg =>
        rw [loopTrace_err gw subs latest fuel b msg hb hg]
        simp [savedUnder, updatedBlocks]
      | ok txs =>
        rw [loopTrace_ok gw subs latest fuel b txs hb hg]
        have hseg : savedUnder a (blockEvents subs b txs) = txs.flatMap (entriesFor a) := by
          unfold blockEvents
          have hc : savedUnder a (Event.getTransactionsByBlockNumber b ::
              (saveEvents subs txs ++ [Event.updateLatestBlock b])) =
              savedUnder a (saveEvents subs txs) ++ savedUnder a [Event.updateLatestBlock b] := by
            rw [← savedUnder_append]
            simp [savedUnder]
          rw [hc, savedUnder_saveEvents subs a txs ha]
          simp [savedUnder]
        simp only [savedUnder_append, updatedBlocks_append, updatedBlocks_blockEvents, hseg,
          List.singleton_append, List.flatMap_cons, okTxs_of_ok gw b txs hg, ih]
    · rw [loopTrace_done gw subs latest fuel b (by omega)]
      simp [savedUnder, updatedBlocks]

/-- Appends under a snapshot address issued by a pass. -/
theorem savedUnder_passTrace (gw : EthGateway) (fuel : Nat) (dao : InMemoryDao) (a : String)
    (ha : dao.GetAllAddresses a = true) :
    savedUnder a (passTrace gw fuel dao).1 =
      (updatedBlocks (passTrace gw fuel dao).1).flatMap
        (fun x => (okTxs gw x).flatMap (entriesFor a)) := by
  obtain ⟨loop, tail, h1, h2, h3⟩ := passTrace_shape gw fuel dao
  have hs : savedUnder a (Event.getMostRecentBlockNumber :: (loop ++ tail)) =
      savedUnder a loop := by
    have hc : Event.getMostRecentBlockNumber :: (loop ++ tail) =
        [Event.getMostRecentBlockNumber] ++ (loop ++ tail) := rfl
    rw [hc, savedUnder_append, savedUnder_append, savedUnder_tail a tail h2]
    simp [savedUnder]
  rw [h1, hs, updatedBlocks_cons_height, updatedBlocks_append, updatedBlocks_tail tail h2,
    List.append_nil]
  rcases h3 with rfl | ⟨latest, _, _, rfl⟩
  · simp [savedUnder, updatedBlocks]
  · exact savedUnder_loopTrace gw _ latest a ha fuel _

/-! ## `CreateAddress` -/

namespace InMemoryDao

theorem createAddress_m (dao : InMemoryDao) (a k : String) :
    (dao.CreateAddress a).m k = if k = a then some (mapGet dao.m a) else dao.m k := by
  unfold CreateAddress
  cases h : dao.m a with
  | none =>
    by_cases hk : k = a <;> simp [mapSet, mapGet, h, hk]
  | some l =>
    by_cases hk : k = a
    · subst hk
      simp [mapGet, h]
    · simp [hk]

theorem createAddress_latestBlock (dao : InMemoryDao) (a : String) :
    (dao.CreateAddress a).latestBlock = dao.latestBlock := by
  unfold CreateAddress
  cases h : dao.m a <;> rfl

theorem createAddress_of_present (dao : InMemoryDao) (a : String) (l : List TransactionModel)
    (h : dao.m a = some l) : dao.CreateAddress a = dao := by
  unfold CreateAddress
  simp [h]

theorem createAddress_idem (dao : InMemoryDao) (a : String) :
    (dao.CreateAddress a).CreateAddress a = dao.CreateAddress a := by
  apply createAddress_of_present _ a (mapGet dao.m a)
  rw [createAddress_m]
  simp

end InMemoryDao

/-! ## The facade -/

theorem foldl_append_singleton (l : List TransactionModel) (acc : List Transaction) :
    l.foldl (fun transactions tx => transactions ++ [toTransaction tx]) acc =
      acc ++ l.map toTransaction := by
  induction l generalizing acc with
  | nil => simp
  | cons x xs ih => simp [ih]

/-- The facade's `GetTransactions` is the projection of the store's log for the
lower-cased address, record by record. -/
theorem getTransactions_eq_map (dao : InMemoryDao) (address : String) :
    GetTransactions dao address =
      (dao.GetTransactions (ToLower address)).map toTransaction := by
  unfold GetTransactions
  rw [foldl_append_singleton]
  simp

theorem subscribe_isSome (dao : InMemoryDao) (a : String) :
    (Subscribe dao a).1.GetAllAddresses (ToLower a) = true := by
  unfold Subscribe InMemoryDao.CreateAddress InMemoryDao.GetAllAddresses
  cases h : dao.m (ToLower a) <;> simp [h, InMemoryDao.mapSet]

/-! ## The range of an incremental pass -/

/-- With every fetch answered and no wrap-around, the block loop started at `b`
fetches and marks as synced the blocks `b .. latest` and completes. -/
theorem loopTrace_all_ok (gw : EthGateway) (subs : String → Bool) (latest : Int)
    (hhi : latest < maxInt)
    (hok : ∀ b, ∃ txs, gw.GetTransactionsByBlockNumber b = GwResult.ok txs)
    (n fuel : Nat) (b : Int) (hlo : minInt ≤ b) (hn : b + n = latest + 1) (hfuel : n < fuel) :
    fetchedBlocks (loopTrace gw subs latest fuel b).1 = intRange b n ∧
      updatedBlocks (loopTrace gw subs latest fuel b).1 = intRange b n ∧
      (loopTrace gw subs latest fuel b).2 = LoopExit.completed := by
  induction n generalizing fuel b with
  | zero =>
    obtain ⟨f, rfl⟩ : ∃ f, fuel = f + 1 := ⟨fuel - 1, by omega⟩
    rw [loopTrace_done gw subs latest f b (by omega)]
    simp [fetchedBlocks, updatedBlocks, intRange]
  | succ n ih =>
    obtain ⟨f, rfl⟩ : ∃ f, fuel = f + 1 := ⟨fuel - 1, by omega⟩
    obtain ⟨txs, hg⟩ := hok b
    rw [loopTrace_ok gw subs latest f b txs (by omega) hg,
      wrapInt_eq (b + 1) (by omega) (by omega)]
    obtain ⟨h1, h2, h3⟩ := ih f (b + 1) (by omega) (by push_cast at hn ⊢; omega) (by omega)
    refine ⟨?_, ?_, h3⟩
    · simp only [fetchedBlocks_append, fetchedBlocks_blockEvents, h1, intRange_succ]
      rfl
    · simp only [updatedBlocks_append, updatedBlocks_blockEvents, h2, intRange_succ]
      rfl

theorem intRange_getLast (lo : Int) (n : Nat) :
    (intRange lo (n + 1)).getLast? = some (lo + n) := by
  unfold intRange
  rw [List.range_succ]
  simp

/-- What an incremental pass does: from a watermark `W` other than 0, with a
reported height `H > W` below `maxInt` and every fetch answered, the pass
fetches the blocks `W, W + 1, ..., H`, the block `W` included, and ends in the
12-second sleep with watermark `H`. -/
theorem incremental_pass_range (gw : EthGateway) (dao : InMemoryDao) (H : Int) (fuel : Nat)
    (hW0 : dao.latestBlock ≠ 0) (hlo : minInt ≤ dao.latestBlock) (hWH : dao.latestBlock < H)
    (hhi : H < maxInt)
    (hH : gw.GetMostRecentBlockNumber = GwResult.ok H)
    (hok : ∀ b, ∃ txs, gw.GetTransactionsByBlockNumber b = GwResult.ok txs)
    (hfuel : (H - dao.latestBlock).toNat + 2 ≤ fuel) :
    (syncPass gw fuel dao).2 = PassExit.slept 12 ∧
      fetchedBlocks (syncPass gw fuel dao).1.trace =
        intRange dao.latestBlock ((H - dao.latestBlock).toNat + 1) ∧
      (syncPass gw fuel dao).1.dao.latestBlock = H := by
  obtain ⟨h1, h2, h3⟩ := loopTrace_all_ok gw dao.GetAllAddresses H hhi hok
    ((H - dao.latestBlock).toNat + 1) fuel dao.latestBlock hlo (by push_cast; omega) (by omega)
  have hne : H ≠ dao.latestBlock := by omega
  rw [syncPass_eq, passTrace_ok gw fuel dao H hH hne, if_neg hW0, h3]
  refine ⟨rfl, ?_, ?_⟩
  · simp only [fetchedBlocks_cons_height, fetchedBlocks_append, h1, passEnd]
    simp [fetchedBlocks]
  · rw [latestBlock_replay]
    simp only [updatedBlocks_cons_height, updatedBlocks_append, h2, passEnd]
    have hu : updatedBlocks [Event.sleep 12] = [] := by simp [updatedBlocks]
    rw [hu, List.append_nil, intRange_getLast]
    simp only [Option.getD_some]
    omega

/-! ## Appends are under snapshot addresses -/

theorem mem_txEvents_save (subs : String → Bool) (tx : TransactionModel) (a : String)
    (r : TransactionModel) (h : Event.saveTransaction a r ∈ txEvents subs tx) :
    subs a = true := by
  unfold txEvents at h
  by_cases hf : subs tx.From = true <;> by_cases ht : subs tx.To = true <;>
    simp [hf, ht] at h
  · rcases h with ⟨rfl, _⟩ | ⟨rfl, _⟩
    · exact hf
    · exact ht
  · obtain ⟨rfl, _⟩ := h
    exact hf
  · obtain ⟨rfl, _⟩ := h
    exact ht

theorem mem_saveEvents_save (subs : String → Bool) (txs : List TransactionModel) (a : String)
    (r : TransactionModel) (h : Event.saveTransaction a r ∈ saveEvents subs txs) :
    subs a = true := by
  unfold saveEvents at h
  rw [List.mem_flatMap] at h
  obtain ⟨tx, _, htx⟩ := h
  exact mem_txEvents_save subs tx a r htx

theorem mem_loopTrace_save (gw : EthGateway) (subs : String → Bool) (latest : Int)
    (a : String) (r : TransactionModel) (fuel : Nat) (b : Int)
    (h : Event.saveTransaction a r ∈ (loopTrace gw subs latest fuel b).1) :
    subs a = true := by
  induction fuel generalizing b with
  | zero => simp [loopTrace] at h
  | succ fuel ih =>
    by_cases hb : b ≤ latest
    · cases hg : gw.GetTransactionsByBlockNumber b with
      | panic m =>
        rw [loopTrace_panic gw subs latest fuel b m hb hg] at h
        simp at h
      | err m =>
        rw [loopTrace_err gw subs latest fuel b m hb hg] at h
        simp at h
      | ok txs =>
        rw [loopTrace_ok gw subs latest fuel b txs hb hg] at h
        simp only [List.mem_append, blockEvents, List.mem_cons, List.mem_singleton] at h
        rcases h with (h | h | h) | h
        · cases h
        · exact mem_saveEvents_save subs txs a r h
        · rcases h with h | h
          · cases h
          · cases h
        · exact ih _ h
    · rw [loopTrace_done gw subs latest fuel b (by omega)] at h
      simp at h

/-- Every append a pass issues is under an address of the snapshot taken at its
start. -/
theorem mem_passTrace_save (gw : EthGateway) (fuel : Nat) (dao : InMemoryDao) (a : String)
    (r : TransactionModel)
    (h : Event.saveTransaction a r ∈ (passTrace gw fuel dao).1) :
    dao.GetAllAddresses a = true := by
  obtain ⟨loop, tail, h1, h2, h3⟩ := passTrace_shape gw fuel dao
  rw [h1] at h
  simp only [List.mem_cons, List.mem_append] at h
  rcases h with h | h | h
  · cases h
  · rcases h3 with rfl | ⟨latest, _, _, rfl⟩
    · simp at h
    · exact mem_loopTrace_save gw _ latest a r fuel _ h
  · rcases h2 with rfl | ⟨n, rfl⟩
    · simp at h
    · simp at h

theorem savedUnder_eq_nil (a : String) (t : List Event)
    (h : ∀ r, Event.saveTransaction a r ∉ t) : savedUnder a t = [] := by
  induction t with
  | nil => rfl
  | cons ev t ih =>
    have ht : ∀ r, Event.saveTransaction a r ∉ t :=
      fun r hm => h r (List.mem_cons_of_mem _ hm)
    have hc : savedUnder a (ev :: t) = savedUnder a [ev] ++ savedUnder a t := by
      rw [← savedUnder_append]
      rfl
    rw [hc, ih ht, List.append_nil]
    cases ev with
    | saveTransaction a2 r =>
      have hne : ¬ a2 = a := by
        intro h2
        subst h2
        exact h r (List.mem_cons_self _ _)
      simp [savedUnder, hne]
    | updateLatestBlock b => simp [savedUnder]
    | getMostRecentBlockNumber => simp [savedUnder]
    | getTransactionsByBlockNumber b => simp [savedUnder]
    | sleep n => simp [savedUnder]

/-- A pass leaves the log of an address outside its snapshot as it was. -/
theorem getTransactions_pass_of_not_subscribed (gw : EthGateway) (fuel : Nat)
    (dao : InMemoryDao) (a : String) (ha : dao.GetAllAddresses a = false) :
    (replay dao (passTrace gw fuel dao).1).GetTransactions a = dao.GetTransactions a := by
  rw [getTransactions_replay, savedUnder_eq_nil a _ (fun r hm => by
    have := mem_passTrace_save gw fuel dao a r hm
    rw [ha] at this
    cases this)]
  simp

/-! ## The calls of one transaction within its block -/

theorem saveEvents_split (subs : String → Bool) (pre post : List TransactionModel)
    (tx : TransactionModel) :
    saveEvents subs (pre ++ tx :: post) =
      saveEvents subs pre ++ (txEvents subs tx ++ saveEvents subs post) := by
  simp [saveEvents]

theorem txEvents_sender_only (subs : String → Bool) (tx : TransactionModel)
    (hf : subs tx.From = true) (ht : subs tx.To = false) :
    txEvents subs tx = [Event.saveTransaction tx.From tx] := by
  simp [txEvents, hf, ht]

theorem txEvents_both (subs : String → Bool) (tx : TransactionModel)
    (hf : subs tx.From = true) (ht : subs tx.To = true) :
    txEvents subs tx =
      [Event.saveTransaction tx.From tx, Event.saveTransaction tx.To tx] := by
  simp [txEvents, hf, ht]

theorem txEvents_neither (subs : String → Bool) (tx : TransactionModel)
    (hf : subs tx.From = false) (ht : subs tx.To = false) :
    txEvents subs tx = [] := by
  simp [txEvents, hf, ht]

/-- Log of a snapshot address after the transaction loop over a block. -/
theorem getTransactions_saveBlock (subs : String → Bool) (e : Engine)
    (pre post : List TransactionModel) (tx : TransactionModel) (a : String)
    (ha : subs a = true) :
    (saveBlock subs e (pre ++ tx :: post)).dao.GetTransactions a =
      e.dao.GetTransactions a ++
        (pre.flatMap (entriesFor a) ++ (entriesFor a tx ++ post.flatMap (entriesFor a))) := by
  rw [saveBlock_eq]
  simp only []
  rw [getTransactions_replay, savedUnder_saveEvents subs a _ ha]
  simp

/-- The calls right before a watermark update of a pass, split at one
transaction of the block. -/
theorem passTrace_before_update (gw : EthGateway) (fuel : Nat) (dao : InMemoryDao) (b : Int)
    (p q : List Event) (pre post : List TransactionModel) (tx : TransactionModel)
    (hsplit : (passTrace gw fuel dao).1 = p ++ Event.updateLatestBlock b :: q)
    (hg : gw.GetTransactionsByBlockNumber b = GwResult.ok (pre ++ tx :: post)) :
    ∃ p0, p = p0 ++ Event.getTransactionsByBlockNumber b ::
      (saveEvents dao.GetAllAddresses pre ++
        (txEvents dao.GetAllAddresses tx ++ saveEvents dao.GetAllAddresses post)) := by
  obtain ⟨p0, hp⟩ := updatesFollowAppends_passTrace gw fuel dao p q b hsplit
  rw [okTxs_of_ok gw b _ hg, saveEvents_split] at hp
  exact ⟨p0, hp⟩

/-! ## C1: no-gap advancement -/

theorem wrapInt_eq_of_nonneg (x : Int) (hlo : 0 ≤ x) (hhi : x ≤ maxInt) : wrapInt x = x :=
  wrapInt_eq x (by unfold minInt; omega) hhi

/-- C1 (no-gap advancement). From a store whose watermark is `N > 0`, with a
gateway that reports height `N + 5` and answers every fetch except that of block
`N + 3`, one pass ends in the 1-second sleep with watermark `N + 2`, having
fetched `N .. N + 3` and set the watermark to `N`, `N + 1`, `N + 2` only. The
following pass, with every fetch answered, fetches `N + 2, N + 3, N + 4, N + 5`
first, and when the block counter cannot wrap (`N + 5 < maxInt`) it fetches
nothing else and ends with watermark `N + 5`. -/
theorem no_gap_advancement (N : Int) (gw gw2 : EthGateway) (dao : InMemoryDao)
    (fuel fuel2 : Nat)
    (hN : 0 < N) (hmax : N + 5 ≤ maxInt)
    (hW : dao.latestBlock = N)
    (hH : gw.GetMostRecentBlockNumber = GwResult.ok (N + 5))
    (hok : ∀ b, b ≠ N + 3 → ∃ txs, gw.GetTransactionsByBlockNumber b = GwResult.ok txs)
    (hfail : ∃ msg, gw.GetTransactionsByBlockNumber (N + 3) = GwResult.err msg)
    (hfuel : 4 ≤ fuel)
    (hH2 : gw2.GetMostRecentBlockNumber = GwResult.ok (N + 5))
    (hok2 : ∀ b, ∃ txs, gw2.GetTransactionsByBlockNumber b = GwResult.ok txs)
    (hfuel2 : 4 ≤ fuel2) :
    (syncPass gw fuel dao).2 = PassExit.slept 1 ∧
    (syncPass gw fuel dao).1.dao.latestBlock = N + 2 ∧
    fetchedBlocks (syncPass gw fuel dao).1.trace = [N, N + 1, N + 2, N + 3] ∧
    updatedBlocks (syncPass gw fuel dao).1.trace = [N, N + 1, N + 2] ∧
    [N + 2, N + 3, N + 4, N + 5] <+:
      fetchedBlocks (syncPass gw2 fuel2 (syncPass gw fuel dao).1.dao).1.trace ∧
    (N + 5 < maxInt → 5 ≤ fuel2 →
      (syncPass gw2 fuel2 (syncPass gw fuel dao).1.dao).2 = PassExit.slept 12 ∧
      fetchedBlocks (syncPass gw2 fuel2 (syncPass gw fuel dao).1.dao).1.trace =
        [N + 2, N + 3, N + 4, N + 5] ∧
      (syncPass gw2 fuel2 (syncPass gw fuel dao).1.dao).1.dao.latestBlock = N + 5) := by
  obtain ⟨f, rfl⟩ : ∃ f, fuel = f + 4 := ⟨fuel - 4, by omega⟩
  obtain ⟨g, rfl⟩ : ∃ g, fuel2 = g + 4 := ⟨fuel2 - 4, by omega⟩
  obtain ⟨tx0, h0⟩ := hok N (by omega)
  obtain ⟨tx1, h1⟩ := hok (N + 1) (by omega)
  obtain ⟨tx2, h2⟩ := hok (N + 2) (by omega)
  obtain ⟨msg, h3⟩ := hfail
  have w1 : wrapInt (N + 1) = N + 1 := wrapInt_eq_of_nonneg _ (by omega) (by omega)
  have w2 : wrapInt (N + 1 + 1) = N + 2 := by
    rw [wrapInt_eq_of_nonneg _ (by omega) (by omega)]; ring
  have w3 : wrapInt (N + 2 + 1) = N + 3 := by
    rw [wrapInt_eq_of_nonneg _ (by omega) (by omega)]; ring
  have w4 : wrapInt (N + 3 + 1) = N + 4 := by
    rw [wrapInt_eq_of_nonneg _ (by omega) (by omega)]; ring
  have w5 : wrapInt (N + 4 + 1) = N + 5 := by
    rw [wrapInt_eq_of_nonneg _ (by omega) (by omega)]; ring
  -- first pass
  have hne : N + 5 ≠ dao.latestBlock := by omega
  have hz : ¬ dao.latestBlock = 0 := by omega
  have p1 : passTrace gw (f + 4) dao =
      (Event.getMostRecentBlockNumber ::
        ((blockEvents dao.GetAllAddresses N tx0 ++
          (blockEvents dao.GetAllAddresses (N + 1) tx1 ++
            (blockEvents dao.GetAllAddresses (N + 2) tx2 ++
              [Event.getTransactionsByBlockNumber (N + 3)]))) ++ [Event.sleep 1]),
       PassExit.slept 1) := by
    rw [passTrace_ok gw (f + 4) dao (N + 5) hH hne, if_neg hz, hW,
      loopTrace_ok gw _ (N + 5) (f + 3) N tx0 (by omega) h0, w1,
      loopTrace_ok gw _ (N + 5) (f + 2) (N + 1) tx1 (by omega) h1, w2,
      loopTrace_ok gw _ (N + 5) (f + 1) (N + 2) tx2 (by omega) h2, w3,
      loopTrace_err gw _ (N + 5) f (N + 3) msg (by omega) h3]
    rfl
  have hf1 : fetchedBlocks (passTrace gw (f + 4) dao).1 = [N, N + 1, N + 2, N + 3] := by
    rw [p1]
    simp [fetchedBlocks_cons_height, fetchedBlocks_append, fetchedBlocks_blockEvents,
      fetchedBlocks_cons_fetch]
    simp [fetchedBlocks]
  have hu1 : updatedBlocks (passTrace gw (f + 4) dao).1 = [N, N + 1, N + 2] := by
    rw [p1]
    simp [updatedBlocks_cons_height, updatedBlocks_append, updatedBlocks_blockEvents,
      updatedBlocks_cons_fetch]
    simp [updatedBlocks]
  have hl1 : (replay dao (passTrace gw (f + 4) dao).1).latestBlock = N + 2 := by
    rw [latestBlock_replay, hu1]
    simp
  rw [syncPass_eq gw (f + 4) dao]
  simp only []
  refine ⟨by rw [p1], hl1, hf1, hu1, ?_, ?_⟩
  all_goals
    generalize hd2 : replay dao (passTrace gw (f + 4) dao).1 = dao2 at hl1 ⊢
    obtain ⟨s2, k2⟩ := hok2 (N + 2)
    obtain ⟨s3, k3⟩ := hok2 (N + 3)
    obtain ⟨s4, k4⟩ := hok2 (N + 4)
    obtain ⟨s5, k5⟩ := hok2 (N + 5)
    have hne2 : N + 5 ≠ dao2.latestBlock := by omega
    have hz2 : ¬ dao2.latestBlock = 0 := by omega
    have l2 : loopTrace gw2 dao2.GetAllAddresses (N + 5) (g + 4) (N + 2) =
        (blockEvents dao2.GetAllAddresses (N + 2) s2 ++
          (blockEvents dao2.GetAllAddresses (N + 3) s3 ++
            (blockEvents dao2.GetAllAddresses (N + 4) s4 ++
              (blockEvents dao2.GetAllAddresses (N + 5) s5 ++
                (loopTrace gw2 dao2.GetAllAddresses (N + 5) g (wrapInt (N + 5 + 1))).1))),
         (loopTrace gw2 dao2.GetAllAddresses (N + 5) g (wrapInt (N + 5 + 1))).2) := by
      rw [loopTrace_ok gw2 _ (N + 5) (g + 3) (N + 2) s2 (by omega) k2, w3,
        loopTrace_ok gw2 _ (N + 5) (g + 2) (N + 3) s3 (by omega) k3, w4,
        loopTrace_ok gw2 _ (N + 5) (g + 1) (N + 4) s4 (by omega) k4, w5,
        loopTrace_ok gw2 _ (N + 5) g (N + 5) s5 (by omega) k5]
    rw [syncPass_eq gw2 (g + 4) dao2, passTrace_ok gw2 (g + 4) dao2 (N + 5) hH2 hne2,
      if_neg hz2, hl1, l2]
  · simp only [fetchedBlocks_cons_height, fetchedBlocks_append, fetchedBlocks_blockEvents,
      fetchedBlocks_passEnd, List.append_nil]
    exact ⟨_, rfl⟩
  · intro hlt hg
    obtain ⟨g1, rfl⟩ : ∃ g1, g = g1 + 1 := ⟨g - 1, by omega⟩
    have w6 : wrapInt (N + 5 + 1) = N + 6 := by
      rw [wrapInt_eq_of_nonneg _ (by omega) (by omega)]; ring
    rw [w6, loopTrace_done gw2 _ (N + 5) g1 (N + 6) (by omega)]
    refine ⟨rfl, ?_, ?_⟩
    · simp only [fetchedBlocks_cons_height, fetchedBlocks_append, fetchedBlocks_blockEvents,
        fetchedBlocks_passEnd, List.append_nil]
      rfl
    · rw [latestBlock_replay]
      simp only [updatedBlocks_cons_height, updatedBlocks_append, updatedBlocks_blockEvents,
        updatedBlocks_passEnd, List.append_nil]
      simp [updatedBlocks]

/-- C1 at `N = 100`: the failing block is 103 and the reported height 105. -/
theorem no_gap_advancement_witness :
    (syncPass (gatewayFailingAt 105 103 fun _ => []) 4 (storeAt 100 [])).2 =
        PassExit.slept 1 ∧
      (syncPass (gatewayFailingAt 105 103 fun _ => []) 4 (storeAt 100 [])).1.dao.latestBlock =
        100 + 2 :=
  have h := no_gap_advancement 100 (gatewayFailingAt 105 103 fun _ => [])
    (gatewayOk 105 fun _ => []) (storeAt 100 []) 4 5 (by decide) (by decide) rfl rfl
    (fun b hb => ⟨[], by
      have hb2 : ¬ b = 103 := hb
      simp [gatewayFailingAt, hb2]⟩) ⟨"timeout", by simp [gatewayFailingAt]⟩
    (by decide) rfl (fun _ => ⟨[], rfl⟩) (by decide)
  ⟨h.1, h.2.1⟩

/-! ## C2: incremental range -/

/-- C2 (incremental range), evaluated on the code: from watermark 100 with
discovered height 101 and every fetch answered, one pass fetches block 100 again
and then block 101, not block 101 only; it ends in the 12-second sleep with
watermark 101. -/
theorem incremental_pass_refetches_watermark_block :
    fetchedBlocks (syncPass (gatewayOk 101 fun _ => []) 3 (storeAt 100 [])).1.trace =
        [100, 101] ∧
      (syncPass (gatewayOk 101 fun _ => []) 3 (storeAt 100 [])).2 = PassExit.slept 12 ∧
      (syncPass (gatewayOk 101 fun _ => []) 3 (storeAt 100 [])).1.dao.latestBlock = 101 := by
  decide

/-! ## C3: no double-counting -/

/-- C3 (no double-counting), evaluated on the code: with `0xa` subscribed and
watermark 0, a pass that discovers height 100 followed by a pass that discovers
height 101, over fixed block contents, fetches block 100 twice, and the one
transfer of block 100 sent by `0xa` is in the log of `0xa` twice. -/
theorem block_100_ingested_twice :
    (update 3 [gatewayOk 100 blocks100, gatewayOk 101 blocks100]
        { dao := storeAt 0 ["0xa"], trace := [] }).2 = UpdateExit.running ∧
      fetchedBlocks (update 3 [gatewayOk 100 blocks100, gatewayOk 101 blocks100]
        { dao := storeAt 0 ["0xa"], trace := [] }).1.trace = [100, 100, 101] ∧
      (update 3 [gatewayOk 100 blocks100, gatewayOk 101 blocks100]
        { dao := storeAt 0 ["0xa"], trace := [] }).1.dao.GetTransactions "0xa" =
        [mkTx "0xh1" "0xa" "0xb", mkTx "0xh1" "0xa" "0xb"] := by
  decide

/-! ## C4: first sync without backfill -/

/-- C4, counterexample. From watermark 0, a gateway that reports height 0 and
answers the fetch of block 0 makes the pass end in the 12-second sleep without
fetching block 0; and a gateway that reports height `maxInt` and answers the
fetch of that block makes the pass go on to fetch block `minInt`, which is below
the height, and set the watermark to it. -/
theorem first_sync_at_height_zero_fetches_nothing :
    (gatewayOk 0 fun _ => []).GetMostRecentBlockNumber = GwResult.ok 0 ∧
      (gatewayOk 0 fun _ => []).GetTransactionsByBlockNumber 0 = GwResult.ok [] ∧
      (storeAt 0 []).latestBlock = 0 ∧
      (syncPass (gatewayOk 0 fun _ => []) 3 (storeAt 0 [])).2 = PassExit.slept 12 ∧
      fetchedBlocks (syncPass (gatewayOk 0 fun _ => []) 3 (storeAt 0 [])).1.trace = [] ∧
      (gatewayFailingAt maxInt (minInt + 1) fun _ => []).GetTransactionsByBlockNumber maxInt =
        GwResult.ok [] ∧
      fetchedBlocks
        (syncPass (gatewayFailingAt maxInt (minInt + 1) fun _ => []) 3 (storeAt 0 [])).1.trace =
        [maxInt, minInt, minInt + 1] ∧
      (syncPass (gatewayFailingAt maxInt (minInt + 1) fun _ => []) 3
        (storeAt 0 [])).1.dao.latestBlock = minInt := by
  decide

/-- C4 (first sync without backfill), amended. From watermark 0, with a gateway
that reports a height `H` other than 0 and below `maxInt` and answers the fetch
of block `H`, one pass fetches block `H` and no other block, sets the watermark
to `H` and ends in the 12-second sleep. -/
theorem first_sync_without_backfill (H : Int) (gw : EthGateway) (dao : InMemoryDao)
    (fuel : Nat)
    (hW : dao.latestBlock = 0)
    (hH : gw.GetMostRecentBlockNumber = GwResult.ok H)
    (hok : ∃ txs, gw.GetTransactionsByBlockNumber H = GwResult.ok txs)
    (hne : H ≠ 0) (hlo : minInt ≤ H) (hhi : H < maxInt) (hfuel : 2 ≤ fuel) :
    (syncPass gw fuel dao).2 = PassExit.slept 12 ∧
      fetchedBlocks (syncPass gw fuel dao).1.trace = [H] ∧
      (syncPass gw fuel dao).1.dao.latestBlock = H := by
  obtain ⟨f, rfl⟩ : ∃ f, fuel = f + 2 := ⟨fuel - 2, by omega⟩
  obtain ⟨txs, hg⟩ := hok
  have hne2 : H ≠ dao.latestBlock := by omega
  have p : passTrace gw (f + 2) dao =
      (Event.getMostRecentBlockNumber ::
        ((blockEvents dao.GetAllAddresses H txs ++ []) ++ [Event.sleep 12]),
       PassExit.slept 12) := by
    rw [passTrace_ok gw (f + 2) dao H hH hne2, if_pos hW,
      loopTrace_ok gw _ H (f + 1) H txs (le_refl H) hg,
      wrapInt_eq (H + 1) (by omega) (by omega),
      loopTrace_done gw _ H f (H + 1) (by omega)]
    rfl
  rw [syncPass_eq, p]
  refine ⟨rfl, ?_, ?_⟩
  · simp only [fetchedBlocks_cons_height, fetchedBlocks_append, fetchedBlocks_blockEvents]
    rfl
  · rw [latestBlock_replay]
    simp only [updatedBlocks_cons_height, updatedBlocks_append, updatedBlocks_blockEvents]
    simp [updatedBlocks]

/-- C4 at the scenario's height 100. -/
theorem first_sync_without_backfill_witness :
    (syncPass (gatewayOk 100 fun _ => []) 2 (storeAt 0 [])).2 = PassExit.slept 12 ∧
      fetchedBlocks (syncPass (gatewayOk 100 fun _ => []) 2 (storeAt 0 [])).1.trace = [100] ∧
      (syncPass (gatewayOk 100 fun _ => []) 2 (storeAt 0 [])).1.dao.latestBlock = 100 :=
  first_sync_without_backfill 100 (gatewayOk 100 fun _ => []) (storeAt 0 []) 2 rfl rfl
    ⟨[], rfl⟩ (by decide) (by decide) (by decide) (by decide)

/-! ## C5: monotone watermark -/

/-- C5, counterexample. From watermark 0, a gateway that reports height -1 and
answers the fetch of block -1 makes the pass set the watermark to -1; and from
watermark `maxInt - 1`, a gateway that reports height `maxInt` makes the block
counter wrap, so that the pass sets the watermark to `minInt`. In both cases the
watermark after the pass is below the watermark before it. -/
theorem watermark_decreases_on_negative_height :
    (syncPass (gatewayOk (-1) fun _ => []) 3 (storeAt 0 [])).2 = PassExit.slept 12 ∧
      (syncPass (gatewayOk (-1) fun _ => []) 3 (storeAt 0 [])).1.dao.latestBlock = -1 ∧
      (syncPass (gatewayOk (-1) fun _ => []) 3 (storeAt 0 [])).1.dao.latestBlock <
        (storeAt 0 []).latestBlock ∧
      (syncPass (gatewayFailingAt maxInt (minInt + 1) fun _ => []) 4
        (storeAt (maxInt - 1) [])).2 = PassExit.slept 1 ∧
      (syncPass (gatewayFailingAt maxInt (minInt + 1) fun _ => []) 4
        (storeAt (maxInt - 1) [])).1.dao.latestBlock = minInt ∧
      (syncPass (gatewayFailingAt maxInt (minInt + 1) fun _ => []) 4
        (storeAt (maxInt - 1) [])).1.dao.latestBlock < (storeAt (maxInt - 1) []).latestBlock := by
  decide

/-- C5 (monotone watermark), amended. For every store whose watermark is a Go
`int` and every gateway behaviour whose reported height, if any, is below
`maxInt` and, when the watermark is 0, not negative: the watermark after one
pass (also one cut short) is at least the watermark before it; and every
watermark update to a block `b` issued by the pass comes right after the
successful fetch of `b` and the appends of all of its matching transactions, so
that at this point the log of every snapshot address ends with its entries of
block `b`. -/
theorem watermark_monotone (gw : EthGateway) (fuel : Nat) (dao : InMemoryDao)
    (hrep : minInt ≤ dao.latestBlock)
    (hH : ∀ H, gw.GetMostRecentBlockNumber = GwResult.ok H →
      minInt ≤ H ∧ H < maxInt ∧ (dao.latestBlock = 0 → 0 ≤ H)) :
    dao.latestBlock ≤ (syncPass gw fuel dao).1.dao.latestBlock ∧
    ∀ pre post b, (syncPass gw fuel dao).1.trace = pre ++ Event.updateLatestBlock b :: post →
      ∃ txs, gw.GetTransactionsByBlockNumber b = GwResult.ok txs ∧
        (∃ pre0, pre = pre0 ++
          Event.getTransactionsByBlockNumber b :: saveEvents dao.GetAllAddresses txs) ∧
        ∀ a, dao.GetAllAddresses a = true →
          ∃ l, (replay dao pre).GetTransactions a = l ++ txs.flatMap (entriesFor a) := by
  rw [syncPass_eq]
  constructor
  · rw [latestBlock_replay]
    obtain ⟨start, k, hs, hk⟩ := updatedBlocks_passTrace_range gw fuel dao hrep
      (fun H h => ⟨(hH H h).1, (hH H h).2.1⟩)
    have hle : dao.latestBlock ≤ start := by
      rcases hs with h | ⟨h0, hg⟩
      · omega
      · have := (hH start hg).2.2 h0
        omega
    cases hl : (updatedBlocks (passTrace gw fuel dao).1).getLast? with
    | none => simp
    | some x =>
      have hx : x ∈ updatedBlocks (passTrace gw fuel dao).1 := List.mem_of_getLast?_eq_some hl
      rw [hk, mem_intRange] at hx
      simp only [Option.getD_some]
      omega
  · intro pre post b hsplit
    simp only [] at hsplit
    have hb : b ∈ updatedBlocks (passTrace gw fuel dao).1 := by
      rw [mem_updatedBlocks, hsplit]
      simp
    obtain ⟨txs, hg⟩ := updatedBlocks_passTrace_ok gw fuel dao b hb
    obtain ⟨pre0, hp⟩ := updatesFollowAppends_passTrace gw fuel dao pre post b hsplit
    rw [okTxs_of_ok gw b txs hg] at hp
    refine ⟨txs, hg, ⟨pre0, hp⟩, ?_⟩
    intro a ha
    refine ⟨dao.GetTransactions a ++ savedUnder a pre0, ?_⟩
    rw [getTransactions_replay, hp, savedUnder_append]
    have hc : savedUnder a
        (Event.getTransactionsByBlockNumber b :: saveEvents dao.GetAllAddresses txs) =
        savedUnder a (saveEvents dao.GetAllAddresses txs) := by
      simp [savedUnder]
    rw [hc, savedUnder_saveEvents _ a txs ha, List.append_assoc]


/-- C5 at watermark 100 with height 105 and a failing fetch of block 103. -/
theorem watermark_monotone_witness :
    (storeAt 100 ["0xa"]).latestBlock ≤
      (syncPass (gatewayFailingAt 105 103 blocks100) 10 (storeAt 100 ["0xa"])).1.dao.latestBlock :=
  (watermark_monotone (gatewayFailingAt 105 103 blocks100) 10 (storeAt 100 ["0xa"])
    (by decide) (fun H h => by cases h; decide)).1

/-! ## C6: filter correctness -/

/-- C6 (filter correctness). For every transaction of every block a pass
processes: with the sender in the snapshot and the recipient not, exactly one
append is issued for it, under the sender, whose log gains the record once while
no other address gains anything; with sender and recipient two distinct
snapshot addresses, exactly one append under each, sender first; with neither
in the snapshot, nothing. This is stated for the loop body at every engine
state, for the transaction loop `saveBlock` over a block `pre ++ tx :: post`
(calls issued and logs, the transaction's share standing between those of `pre`
and those of `post`), and for the pass `syncPass`: before every watermark update
to a block `b` answered with `pre ++ tx :: post` come the fetch of `b`, the
appends of `pre`, those of the transaction and those of `post`; after the pass
the log of a snapshot address is its old log followed by its entries of the
processed blocks, one per role of the address in each transaction, and the log
of any other address is as before. -/
theorem filter_correctness (subs : String → Bool) (e : Engine) (tx : TransactionModel) :
    (subs tx.From = true → subs tx.To = false →
      (saveMatching subs e tx).trace = e.trace ++ [Event.saveTransaction tx.From tx] ∧
      (saveMatching subs e tx).dao.GetTransactions tx.From =
        e.dao.GetTransactions tx.From ++ [tx] ∧
      ∀ a, a ≠ tx.From → (saveMatching subs e tx).dao.m a = e.dao.m a) ∧
    (subs tx.From = true → subs tx.To = true → tx.From ≠ tx.To →
      (saveMatching subs e tx).trace =
        e.trace ++ [Event.saveTransaction tx.From tx, Event.saveTransaction tx.To tx] ∧
      (saveMatching subs e tx).dao.GetTransactions tx.From =
        e.dao.GetTransactions tx.From ++ [tx] ∧
      (saveMatching subs e tx).dao.GetTransactions tx.To =
        e.dao.GetTransactions tx.To ++ [tx] ∧
      ∀ a, a ≠ tx.From → a ≠ tx.To → (saveMatching subs e tx).dao.m a = e.dao.m a) ∧
    (subs tx.From = false → subs tx.To = false → saveMatching subs e tx = e) ∧
    (∀ pre post : List TransactionModel,
      (subs tx.From = true → subs tx.To = false →
        (saveBlock subs e (pre ++ tx :: post)).trace =
          e.trace ++ (saveEvents subs pre ++
            (Event.saveTransaction tx.From tx :: saveEvents subs post)) ∧
        (saveBlock subs e (pre ++ tx :: post)).dao.GetTransactions tx.From =
          e.dao.GetTransactions tx.From ++
            (pre.flatMap (entriesFor tx.From) ++ (tx :: post.flatMap (entriesFor tx.From))) ∧
        ∀ a, subs a = true → a ≠ tx.From →
          (saveBlock subs e (pre ++ tx :: post)).dao.GetTransactions a =
            e.dao.GetTransactions a ++
              (pre.flatMap (entriesFor a) ++ post.flatMap (entriesFor a))) ∧
      (subs tx.From = true → subs tx.To = true → tx.From ≠ tx.To →
        (saveBlock subs e (pre ++ tx :: post)).trace =
          e.trace ++ (saveEvents subs pre ++
            (Event.saveTransaction tx.From tx :: Event.saveTransaction tx.To tx ::
              saveEvents subs post)) ∧
        (saveBlock subs e (pre ++ tx :: post)).dao.GetTransactions tx.From =
          e.dao.GetTransactions tx.From ++
            (pre.flatMap (entriesFor tx.From) ++ (tx :: post.flatMap (entriesFor tx.From))) ∧
        (saveBlock subs e (pre ++ tx :: post)).dao.GetTransactions tx.To =
          e.dao.GetTransactions tx.To ++
            (pre.flatMap (entriesFor tx.To) ++ (tx :: post.flatMap (entriesFor tx.To))) ∧
        ∀ a, subs a = true → a ≠ tx.From → a ≠ tx.To →
          (saveBlock subs e (pre ++ tx :: post)).dao.GetTransactions a =
            e.dao.GetTransactions a ++
              (pre.flatMap (entriesFor a) ++ post.flatMap (entriesFor a))) ∧
      (subs tx.From = false → subs tx.To = false →
        (saveBlock subs e (pre ++ tx :: post)).trace =
          e.trace ++ (saveEvents subs pre ++ saveEvents subs post) ∧
        ∀ a, subs a = true →
          (saveBlock subs e (pre ++ tx :: post)).dao.GetTransactions a =
            e.dao.GetTransactions a ++
              (pre.flatMap (entriesFor a) ++ post.flatMap (entriesFor a)))) ∧
    (∀ (gw : EthGateway) (fuel : Nat) (dao : InMemoryDao) (b : Int) (p q : List Event)
        (pre post : List TransactionModel),
      (syncPass gw fuel dao).1.trace = p ++ Event.updateLatestBlock b :: q →
      gw.GetTransactionsByBlockNumber b = GwResult.ok (pre ++ tx :: post) →
      (dao.GetAllAddresses tx.From = true → dao.GetAllAddresses tx.To = false →
        ∃ p0, p = p0 ++ Event.getTransactionsByBlockNumber b ::
          (saveEvents dao.GetAllAddresses pre ++
            (Event.saveTransaction tx.From tx :: saveEvents dao.GetAllAddresses post))) ∧
      (dao.GetAllAddresses tx.From = true → dao.GetAllAddresses tx.To = true →
        tx.From ≠ tx.To →
        ∃ p0, p = p0 ++ Event.getTransactionsByBlockNumber b ::
          (saveEvents dao.GetAllAddresses pre ++
            (Event.saveTransaction tx.From tx :: Event.saveTransaction tx.To tx ::
              saveEvents dao.GetAllAddresses post))) ∧
      (dao.GetAllAddresses tx.From = false → dao.GetAllAddresses tx.To = false →
        ∃ p0, p = p0 ++ Event.getTransactionsByBlockNumber b ::
          (saveEvents dao.GetAllAddresses pre ++ saveEvents dao.GetAllAddresses post))) ∧
    (∀ (gw : EthGateway) (fuel : Nat) (dao : InMemoryDao) (a : String),
      (dao.GetAllAddresses a = true →
        (syncPass gw fuel dao).1.dao.GetTransactions a =
          dao.GetTransactions a ++
            (updatedBlocks (syncPass gw fuel dao).1.trace).flatMap
              (fun b => (okTxs gw b).flatMap (entriesFor a))) ∧
      (dao.GetAllAddresses a = false →
        (syncPass gw fuel dao).1.dao.GetTransactions a = dao.GetTransactions a)) ∧
    (tx.From ≠ tx.To → entriesFor tx.From tx = [tx] ∧ entriesFor tx.To tx = [tx]) ∧
    (∀ a, a ≠ tx.From → a ≠ tx.To → entriesFor a tx = []) := by
  refine ⟨?_, ?_, ?_, ?_, ?_, ?_, ?_, ?_⟩
  · intro hf ht
    refine ⟨?_, ?_, ?_⟩
    · simp [saveMatching, hf, ht, Engine.save]
    · simp [saveMatching, hf, ht, Engine.save, InMemoryDao.getTransactions_saveTransaction]
    · intro a ha
      simp [saveMatching, hf, ht, Engine.save, InMemoryDao.saveTransaction_m, ha]
  · intro hf ht hne
    have hne2 : ¬ tx.To = tx.From := fun h => hne h.symm
    refine ⟨?_, ?_, ?_, ?_⟩
    · simp [saveMatching, hf, ht, Engine.save]
    · simp [saveMatching, hf, ht, Engine.save, InMemoryDao.getTransactions_saveTransaction, hne]
    · simp [saveMatching, hf, ht, Engine.save, InMemoryDao.getTransactions_saveTransaction, hne2]
    · intro a ha1 ha2
      simp [saveMatching, hf, ht, Engine.save, InMemoryDao.saveTransaction_m, ha1, ha2]
  · intro hf ht
    simp [saveMatching, hf, ht]
  · intro pre post
    have htrace : (saveBlock subs e (pre ++ tx :: post)).trace =
        e.trace ++ (saveEvents subs pre ++ (txEvents subs tx ++ saveEvents subs post)) := by
      rw [saveBlock_eq, saveEvents_split]
    refine ⟨?_, ?_, ?_⟩
    · intro hf ht
      have hne : ¬ tx.To = tx.From := by
        intro h
        rw [h, hf] at ht
        cases ht
      refine ⟨?_, ?_, ?_⟩
      · rw [htrace, txEvents_sender_only subs tx hf ht]
        rfl
      · rw [getTransactions_saveBlock subs e pre post tx tx.From hf]
        simp [entriesFor, hne]
      · intro a ha hna
        have h1 : ¬ tx.From = a := fun h => hna h.symm
        have h2 : ¬ tx.To = a := by
          intro h
          rw [h, ha] at ht
          cases ht
        rw [getTransactions_saveBlock subs e pre post tx a ha]
        simp [entriesFor, h1, h2]
    · intro hf ht hne
      have hne2 : ¬ tx.To = tx.From := fun h => hne h.symm
      refine ⟨?_, ?_, ?_, ?_⟩
      · rw [htrace, txEvents_both subs tx hf ht]
        rfl
      · rw [getTransactions_saveBlock subs e pre post tx tx.From hf]
        simp [entriesFor, hne2]
      · rw [getTransactions_saveBlock subs e pre post tx tx.To ht]
        simp [entriesFor, hne]
      · intro a ha hna1 hna2
        have h1 : ¬ tx.From = a := fun h => hna1 h.symm
        have h2 : ¬ tx.To = a := fun h => hna2 h.symm
        rw [getTransactions_saveBlock subs e pre post tx a ha]
        simp [entriesFor, h1, h2]
    · intro hf ht
      refine ⟨?_, ?_⟩
      · rw [htrace, txEvents_neither subs tx hf ht]
        rfl
      · intro a ha
        have h1 : ¬ tx.From = a := by
          intro h
          rw [h, ha] at hf
          cases hf
        have h2 : ¬ tx.To = a := by
          intro h
          rw [h, ha] at ht
          cases ht
        rw [getTransactions_saveBlock subs e pre post tx a ha]
        simp [entriesFor, h1, h2]
  · intro gw fuel dao b p q pre post hsplit hg
    rw [syncPass_eq] at hsplit
    obtain ⟨p0, hp⟩ := passTrace_before_update gw fuel dao b p q pre post tx hsplit hg
    refine ⟨?_, ?_, ?_⟩
    · intro hf ht
      rw [txEvents_sender_only _ tx hf ht] at hp
      exact ⟨p0, hp⟩
    · intro hf ht _
      rw [txEvents_both _ tx hf ht] at hp
      exact ⟨p0, hp⟩
    · intro hf ht
      rw [txEvents_neither _ tx hf ht] at hp
      exact ⟨p0, hp⟩
  · intro gw fuel dao a
    rw [syncPass_eq]
    refine ⟨?_, ?_⟩
    · intro ha
      simp only []
      rw [getTransactions_replay, savedUnder_passTrace gw fuel dao a ha]
    · intro ha
      exact getTransactions_pass_of_not_subscribed gw fuel dao a ha
  · intro hne
    have hne2 : ¬ tx.To = tx.From := fun h => hne h.symm
    exact ⟨by simp [entriesFor, hne2], by simp [entriesFor, hne]⟩
  · intro a h1 h2
    have h3 : ¬ tx.From = a := fun h => h1 h.symm
    have h4 : ¬ tx.To = a := fun h => h2 h.symm
    simp [entriesFor, h3, h4]

/-- C6 on the transfer from `0xa` to `0xb`: the loop body with `0xa` alone, both
and neither subscribed; the transaction loop over a block of three transfers;
and the pass from watermark 100 to height 101 over block 100. -/
theorem filter_correctness_witness :
    (saveMatching (storeAt 0 ["0xa"]).GetAllAddresses { dao := storeAt 0 ["0xa"], trace := [] }
      (mkTx "0xh1" "0xa" "0xb")).trace =
        [] ++ [Event.saveTransaction "0xa" (mkTx "0xh1" "0xa" "0xb")] ∧
    (saveMatching (storeAt 0 ["0xa", "0xb"]).GetAllAddresses
      { dao := storeAt 0 ["0xa", "0xb"], trace := [] } (mkTx "0xh1" "0xa" "0xb")).trace =
        [] ++ [Event.saveTransaction "0xa" (mkTx "0xh1" "0xa" "0xb"),
          Event.saveTransaction "0xb" (mkTx "0xh1" "0xa" "0xb")] ∧
    saveMatching (storeAt 0 []).GetAllAddresses { dao := storeAt 0 [], trace := [] }
      (mkTx "0xh1" "0xa" "0xb") = { dao := storeAt 0 [], trace := [] } ∧
    (saveBlock (storeAt 0 ["0xa"]).GetAllAddresses { dao := storeAt 0 ["0xa"], trace := [] }
      ([mkTx "0xh0" "0xc" "0xa"] ++ mkTx "0xh1" "0xa" "0xb" ::
        [mkTx "0xh2" "0xa" "0xa"])).dao.GetTransactions "0xa" =
      (storeAt 0 ["0xa"]).GetTransactions "0xa" ++
        ([mkTx "0xh0" "0xc" "0xa"].flatMap (entriesFor "0xa") ++
          (mkTx "0xh1" "0xa" "0xb" :: [mkTx "0xh2" "0xa" "0xa"].flatMap (entriesFor "0xa"))) ∧
    (∃ p0, [Event.getMostRecentBlockNumber, Event.getTransactionsByBlockNumber 100,
        Event.saveTransaction "0xa" (mkTx "0xh1" "0xa" "0xb")] =
      p0 ++ Event.getTransactionsByBlockNumber 100 ::
        (saveEvents (storeAt 100 ["0xa"]).GetAllAddresses [] ++
          (Event.saveTransaction "0xa" (mkTx "0xh1" "0xa" "0xb") ::
            saveEvents (storeAt 100 ["0xa"]).GetAllAddresses []))) :=
  ⟨((filter_correctness (storeAt 0 ["0xa"]).GetAllAddresses
      { dao := storeAt 0 ["0xa"], trace := [] } (mkTx "0xh1" "0xa" "0xb")).1
      (by decide) (by decide)).1,
   ((filter_correctness (storeAt 0 ["0xa", "0xb"]).GetAllAddresses
      { dao := storeAt 0 ["0xa", "0xb"], trace := [] } (mkTx "0xh1" "0xa" "0xb")).2.1
      (by decide) (by decide) (by decide)).1,
   (filter_correctness (storeAt 0 []).GetAllAddresses
      { dao := storeAt 0 [], trace := [] } (mkTx "0xh1" "0xa" "0xb")).2.2.1
      (by decide) (by decide),
   (((filter_correctness (storeAt 0 ["0xa"]).GetAllAddresses
      { dao := storeAt 0 ["0xa"], trace := [] } (mkTx "0xh1" "0xa" "0xb")).2.2.2.1
      [mkTx "0xh0" "0xc" "0xa"] [mkTx "0xh2" "0xa" "0xa"]).1 (by decide) (by decide)).2.1,
   ((filter_correctness (storeAt 100 ["0xa"]).GetAllAddresses
      { dao := storeAt 100 ["0xa"], trace := [] } (mkTx "0xh1" "0xa" "0xb")).2.2.2.2.1
      (gatewayOk 101 blocks100) 3 (storeAt 100 ["0xa"]) 100
      [Event.getMostRecentBlockNumber, Event.getTransactionsByBlockNumber 100,
        Event.saveTransaction "0xa" (mkTx "0xh1" "0xa" "0xb")]
      [Event.getTransactionsByBlockNumber 101, Event.updateLatestBlock 101, Event.sleep 12]
      [] [] (by decide) (by decide)).1 (by decide) (by decide)⟩

/-! ## C7: order preservation -/

/-- C7, counterexample. With `0xa` subscribed, watermark 0 and a gateway that
reports height `maxInt`, answers blocks `maxInt` and `minInt` and fails block
`minInt + 1`, one pass processes block `maxInt` and then block `minInt`: the log
of `0xa` holds the entry of block `maxInt` before the entry of block `minInt`,
which is not increasing block number. -/
theorem log_order_not_increasing_at_wrap :
    (syncPass (gatewayFailingAt maxInt (minInt + 1) blocksAtWrap) 4 (storeAt 0 ["0xa"])).2 =
        PassExit.slept 1 ∧
      updatedBlocks
        (syncPass (gatewayFailingAt maxInt (minInt + 1) blocksAtWrap) 4
          (storeAt 0 ["0xa"])).1.trace = [maxInt, minInt] ∧
      minInt < maxInt ∧
      blocksAtWrap maxInt = [mkTx "0xh1" "0xa" "0xb"] ∧
      blocksAtWrap minInt = [mkTx "0xh2" "0xa" "0xb"] ∧
      (syncPass (gatewayFailingAt maxInt (minInt + 1) blocksAtWrap) 4
          (storeAt 0 ["0xa"])).1.dao.GetTransactions "0xa" =
        [mkTx "0xh1" "0xa" "0xb", mkTx "0xh2" "0xa" "0xb"] ∧
      (syncPass (gatewayFailingAt maxInt (minInt + 1) blocksAtWrap) 4
          (storeAt 0 ["0xa"])).1.dao.GetTransactions "0xa" ≠
        [mkTx "0xh2" "0xa" "0xb", mkTx "0xh1" "0xa" "0xb"] := by
  decide

/-- C7 (order preservation), amended. For every address of the snapshot, the
log after a pass is the log before it followed by the entries of the blocks the
pass processed (fetched, appended and marked as synced), block after block in
the order processed and within a block in the block's transaction order; the
old log is a prefix of the new one; and when the watermark and the reported
height are Go `int`s with the height below `maxInt`, the processed blocks are
consecutive block numbers in increasing order. -/
theorem order_preservation (gw : EthGateway) (fuel : Nat) (dao : InMemoryDao) (a : String)
    (ha : dao.GetAllAddresses a = true) :
    (syncPass gw fuel dao).1.dao.GetTransactions a =
      dao.GetTransactions a ++
        (updatedBlocks (syncPass gw fuel dao).1.trace).flatMap
          (fun b => (okTxs gw b).flatMap (entriesFor a)) ∧
    dao.GetTransactions a <+: (syncPass gw fuel dao).1.dao.GetTransactions a ∧
    (∀ b ∈ updatedBlocks (syncPass gw fuel dao).1.trace,
      ∃ txs, gw.GetTransactionsByBlockNumber b = GwResult.ok txs) ∧
    (minInt ≤ dao.latestBlock →
      (∀ H, gw.GetMostRecentBlockNumber = GwResult.ok H → minInt ≤ H ∧ H < maxInt) →
      ∃ (start : Int) (k : Nat),
        updatedBlocks (syncPass gw fuel dao).1.trace = intRange start k) := by
  rw [syncPass_eq]
  have hlog : (replay dao (passTrace gw fuel dao).1).GetTransactions a =
      dao.GetTransactions a ++
        (updatedBlocks (passTrace gw fuel dao).1).flatMap
          (fun b => (okTxs gw b).flatMap (entriesFor a)) := by
    rw [getTransactions_replay, savedUnder_passTrace gw fuel dao a ha]
  refine ⟨hlog, ?_, updatedBlocks_passTrace_ok gw fuel dao, ?_⟩
  · rw [hlog]
    exact List.prefix_append _ _
  · intro hrep hH
    obtain ⟨start, k, _, hk⟩ := updatedBlocks_passTrace_range gw fuel dao hrep hH
    exact ⟨start, k, hk⟩

/-- C7 at watermark 100 with height 101 and `0xa` subscribed. -/
theorem order_preservation_witness :
    (syncPass (gatewayOk 101 blocks100) 3 (storeAt 100 ["0xa"])).1.dao.GetTransactions "0xa" =
      (storeAt 100 ["0xa"]).GetTransactions "0xa" ++
        (updatedBlocks (syncPass (gatewayOk 101 blocks100) 3 (storeAt 100 ["0xa"])).1.trace).flatMap
          (fun b => (okTxs (gatewayOk 101 blocks100) b).flatMap (entriesFor "0xa")) :=
  (order_preservation (gatewayOk 101 blocks100) 3 (storeAt 100 ["0xa"]) "0xa" (by decide)).1

/-! ## C8: case-insensitive matching end to end -/

/-- C8, counterexample. After `Subscribe "0xABC"` on a new store, a pass that
processes block 100, whose one transaction has the sender `0xABC` in the very
form the caller subscribed with, ends in the 12-second sleep and
`GetTransactions "0xABC"` is empty: the engine looks the sender up as it is
spelled, and the key stored by `Subscribe` is `0xabc`. -/
theorem mixed_case_sender_not_matched :
    (Subscribe InMemoryDao.NewInMemoryDao "0xABC").2 = true ∧
      (gatewayOk 100 fun _ => [mkTx "0xh1" "0xABC" "0xdef"]).GetTransactionsByBlockNumber 100 =
        GwResult.ok [mkTx "0xh1" "0xABC" "0xdef"] ∧
      ToLower (mkTx "0xh1" "0xABC" "0xdef").From = ToLower "0xABC" ∧
      (syncPass (gatewayOk 100 fun _ => [mkTx "0xh1" "0xABC" "0xdef"]) 3
        (Subscribe InMemoryDao.NewInMemoryDao "0xABC").1).2 = PassExit.slept 12 ∧
      updatedBlocks (syncPass (gatewayOk 100 fun _ => [mkTx "0xh1" "0xABC" "0xdef"]) 3
        (Subscribe InMemoryDao.NewInMemoryDao "0xABC").1).1.trace = [100] ∧
      GetTransactions (syncPass (gatewayOk 100 fun _ => [mkTx "0xh1" "0xABC" "0xdef"]) 3
        (Subscribe InMemoryDao.NewInMemoryDao "0xABC").1).1.dao "0xABC" = [] := by
  decide

/-- C8 (matching end to end), amended. For every store in which the lower-case
form of `a` is a key (as it is once `Subscribe a` has run, `subscribe_isSome`),
every pass, every block `b` the pass processed and every transaction of `b`
whose sender or recipient is exactly the lower-case form of `a`, the projection
of the transaction is in `GetTransactions a` after the pass. -/
theorem lowercase_match_end_to_end (gw : EthGateway) (fuel : Nat) (dao : InMemoryDao)
    (a : String) (b : Int) (txs : List TransactionModel) (tx : TransactionModel)
    (hsub : dao.GetAllAddresses (ToLower a) = true)
    (hproc : b ∈ updatedBlocks (syncPass gw fuel dao).1.trace)
    (hg : gw.GetTransactionsByBlockNumber b = GwResult.ok txs)
    (htx : tx ∈ txs)
    (hm : tx.From = ToLower a ∨ tx.To = ToLower a) :
    toTransaction tx ∈ GetTransactions (syncPass gw fuel dao).1.dao a := by
  rw [syncPass_eq] at hproc ⊢
  simp only [] at hproc ⊢
  rw [getTransactions_eq_map, getTransactions_replay,
    savedUnder_passTrace gw fuel dao (ToLower a) hsub]
  apply List.mem_map_of_mem
  apply List.mem_append_right
  rw [List.mem_flatMap]
  refine ⟨b, hproc, ?_⟩
  rw [okTxs_of_ok gw b txs hg, List.mem_flatMap]
  refine ⟨tx, htx, ?_⟩
  unfold entriesFor
  rcases hm with h | h <;> simp [h]

/-- C8 after `Subscribe "0xABC"`, with a transfer whose sender is `0xabc`. -/
theorem lowercase_match_end_to_end_witness :
    toTransaction (mkTx "0xh1" "0xabc" "0xdef") ∈
      GetTransactions (syncPass (gatewayOk 100 fun _ => [mkTx "0xh1" "0xabc" "0xdef"]) 3
        (Subscribe InMemoryDao.NewInMemoryDao "0xABC").1).1.dao "0xABC" :=
  lowercase_match_end_to_end (gatewayOk 100 fun _ => [mkTx "0xh1" "0xabc" "0xdef"]) 3
    (Subscribe InMemoryDao.NewInMemoryDao "0xABC").1 "0xABC" 100
    [mkTx "0xh1" "0xabc" "0xdef"] (mkTx "0xh1" "0xabc" "0xdef")
    (by decide) (by decide) rfl (by decide) (by decide)

/-! ## C9: store-level case normalization -/

/-- C9, counterexample. `0xABC` and `0xabc` differ only in letter case, yet on a
new store `SaveTransaction "0xABC" r` followed by `GetTransactions "0xabc"`
returns an empty log, and `CreateAddress "0xABC"` followed by
`CreateAddress "0xabc"` leaves two entries, one under each spelling. -/
theorem store_does_not_normalize_case :
    ToLower "0xABC" = ToLower "0xabc" ∧
      ((InMemoryDao.NewInMemoryDao.SaveTransaction "0xABC"
        (mkTx "0xh1" "0xABC" "0xdef")).GetTransactions "0xabc") = [] ∧
      ((InMemoryDao.NewInMemoryDao.CreateAddress "0xABC").CreateAddress "0xabc").m "0xABC" =
        some [] ∧
      ((InMemoryDao.NewInMemoryDao.CreateAddress "0xABC").CreateAddress "0xabc").m "0xabc" =
        some [] ∧
      "0xABC" ≠ "0xabc" := by
  decide

/-- C9 (case normalization), amended. The store uses the address exactly as
given: `SaveTransaction a r` followed by `GetTransactions a` returns the previous
log of `a` followed by `r`, and `CreateAddress a` twice leaves the store as after
the first call, with `a` the only key added. The facade lower-cases before it
calls the store: for `a` and `b` equal up to letter case, an append under the
lower-case form of `a` followed by the facade's `GetTransactions b` returns the
facade's previous log of `a` followed by the projection of `r`, and
`Subscribe a` followed by `Subscribe b` adds the single key `ToLower a`. -/
theorem store_keys_exact_facade_normalizes (dao : InMemoryDao) (a b : String)
    (r : TransactionModel) (hab : ToLower a = ToLower b) :
    (dao.SaveTransaction a r).GetTransactions a = dao.GetTransactions a ++ [r] ∧
    (dao.CreateAddress a).CreateAddress a = dao.CreateAddress a ∧
    (∀ k, ((dao.CreateAddress a).m k).isSome = ((dao.m k).isSome || decide (k = a))) ∧
    GetTransactions (dao.SaveTransaction (ToLower a) r) b =
      GetTransactions dao a ++ [toTransaction r] ∧
    (Subscribe (Subscribe dao a).1 b).1 = (Subscribe dao a).1 ∧
    (∀ k, ((Subscribe (Subscribe dao a).1 b).1.m k).isSome =
      ((dao.m k).isSome || decide (k = ToLower a))) := by
  have hkeys : ∀ (d : InMemoryDao) (x k : String),
      ((d.CreateAddress x).m k).isSome = ((d.m k).isSome || decide (k = x)) := by
    intro d x k
    rw [InMemoryDao.createAddress_m]
    by_cases hk : k = x
    · simp [hk]
    · simp [hk]
  have hsecond : (Subscribe (Subscribe dao a).1 b).1 = (Subscribe dao a).1 := by
    unfold Subscribe
    simp only []
    rw [← hab]
    exact InMemoryDao.createAddress_idem dao (ToLower a)
  refine ⟨?_, InMemoryDao.createAddress_idem dao a, hkeys dao a, ?_, hsecond, ?_⟩
  · simp [InMemoryDao.getTransactions_saveTransaction]
  · rw [getTransactions_eq_map, getTransactions_eq_map, ← hab]
    simp [InMemoryDao.getTransactions_saveTransaction]
  · intro k
    rw [hsecond]
    exact hkeys dao (ToLower a) k

/-- C9 at `a = "0xABC"` and `b = "0xabc"`. -/
theorem store_keys_exact_facade_normalizes_witness :
    GetTransactions (InMemoryDao.NewInMemoryDao.SaveTransaction (ToLower "0xABC")
        (mkTx "0xh1" "0xabc" "0xdef")) "0xabc" =
      GetTransactions InMemoryDao.NewInMemoryDao "0xABC" ++
        [toTransaction (mkTx "0xh1" "0xabc" "0xdef")] :=
  (store_keys_exact_facade_normalizes InMemoryDao.NewInMemoryDao "0xABC" "0xabc"
    (mkTx "0xh1" "0xabc" "0xdef") (by decide)).2.2.2.1

/-! ## C10: idempotent subscribe -/

/-- C10 (idempotent subscribe). For every store and every `a`, `b` equal up to
letter case: `Subscribe a` and then `Subscribe b` both return true; the keys of
the store afterwards are the keys before together with the lower-case form of
`a`, so at most one entry is created, keyed by the lower-case form (and it is the
only key equal to `a` up to case when the keys of the store are lower-case);
after the first call the log of a new address is empty, an address already
present leaves the store as it was, no other key and not the watermark is
touched; and the second call leaves the whole store unchanged. -/
theorem idempotent_subscribe (dao : InMemoryDao) (a b : String)
    (hab : ToLower a = ToLower b) :
    (Subscribe dao a).2 = true ∧
    (Subscribe (Subscribe dao a).1 b).2 = true ∧
    (∀ k, ((Subscribe (Subscribe dao a).1 b).1.m k).isSome =
      ((dao.m k).isSome || decide (k = ToLower a))) ∧
    ((∀ k, (dao.m k).isSome = true → ToLower k = k) →
      ∀ k, ((Subscribe (Subscribe dao a).1 b).1.m k).isSome = true →
        ToLower k = ToLower a → k = ToLower a) ∧
    (dao.m (ToLower a) = none → (Subscribe dao a).1.m (ToLower a) = some []) ∧
    (∀ l, dao.m (ToLower a) = some l → (Subscribe dao a).1 = dao) ∧
    (∀ k, k ≠ ToLower a → (Subscribe dao a).1.m k = dao.m k) ∧
    (Subscribe dao a).1.latestBlock = dao.latestBlock ∧
    (Subscribe (Subscribe dao a).1 b).1 = (Subscribe dao a).1 := by
  have hsecond : (Subscribe (Subscribe dao a).1 b).1 = (Subscribe dao a).1 := by
    unfold Subscribe
    simp only []
    rw [← hab]
    exact InMemoryDao.createAddress_idem dao (ToLower a)
  have hkeys : ∀ k, ((Subscribe (Subscribe dao a).1 b).1.m k).isSome =
      ((dao.m k).isSome || decide (k = ToLower a)) := by
    intro k
    rw [hsecond]
    unfold Subscribe
    simp only []
    rw [InMemoryDao.createAddress_m]
    by_cases hk : k = ToLower a
    · simp [hk]
    · simp [hk]
  refine ⟨rfl, rfl, hkeys, ?_, ?_, ?_, ?_, ?_, hsecond⟩
  · intro hlow k hk hka
    rw [hkeys k] at hk
    by_cases hk2 : k = ToLower a
    · exact hk2
    · simp only [hk2, decide_False, Bool.or_false] at hk
      rw [← hlow k hk]
      exact hka
  · intro hnone
    unfold Subscribe
    simp only []
    rw [InMemoryDao.createAddress_m]
    simp [InMemoryDao.mapGet, hnone]
  · intro l hl
    exact InMemoryDao.createAddress_of_present dao (ToLower a) l hl
  · intro k hk
    unfold Subscribe
    simp only []
    rw [InMemoryDao.createAddress_m]
    simp [hk]
  · exact InMemoryDao.createAddress_latestBlock dao (ToLower a)

/-- C10 at `a = "0xABC"` and `b = "0xabc"` on a store that holds another
address. -/
theorem idempotent_subscribe_witness :
    (Subscribe (Subscribe (storeAt 7 ["0xdef"]) "0xABC").1 "0xabc").1 =
      (Subscribe (storeAt 7 ["0xdef"]) "0xABC").1 :=
  (idempotent_subscribe (storeAt 7 ["0xdef"]) "0xABC" "0xabc" (by decide)).2.2.2.2.2.2.2.2

/-! ## C11: case insensitivity of the facade -/

/-- C11 (case insensitivity of the facade). For every store and every `a`, `b`
equal up to letter case, after `Subscribe a` the facade's `GetTransactions b`
returns the same sequence as `GetTransactions a`; the same holds on every
store. -/
theorem facade_case_insensitive (dao : InMemoryDao) (a b : String)
    (hab : ToLower a = ToLower b) :
    GetTransactions (Subscribe dao a).1 b = GetTransactions (Subscribe dao a).1 a ∧
    (∀ d : InMemoryDao, GetTransactions d b = GetTransactions d a) := by
  have h : ∀ d : InMemoryDao, GetTransactions d b = GetTransactions d a := by
    intro d
    rw [getTransactions_eq_map, getTransactions_eq_map, hab]
  exact ⟨h _, h⟩

/-- C11 at the claim's witness `a = "0xABC"`, `b = "0xabc"`. -/
theorem facade_case_insensitive_witness :
    GetTransactions (Subscribe (storeAt 0 []) "0xABC").1 "0xabc" =
      GetTransactions (Subscribe (storeAt 0 []) "0xABC").1 "0xABC" :=
  (facade_case_insensitive (storeAt 0 []) "0xABC" "0xabc" (by decide)).1

/-! ## C12: unknown address -/

/-- C12 (unknown address). For every store and every address whose lower-case
form is not a key, the store's `GetTransactions` on that key and the facade's
`GetTransactions` on the address both return the empty sequence, of length 0;
the store returns the empty sequence for every absent key. Both are functions
of the store that return a sequence only: there is no error result and no new
store. -/
theorem unknown_address_empty (dao : InMemoryDao) (a : String)
    (h : dao.m (ToLower a) = none) :
    dao.GetTransactions (ToLower a) = [] ∧
    (dao.GetTransactions (ToLower a)).length = 0 ∧
    GetTransactions dao a = [] ∧
    (GetTransactions dao a).length = 0 ∧
    (∀ k, dao.m k = none → dao.GetTransactions k = []) := by
  have hk : ∀ k, dao.m k = none → dao.GetTransactions k = [] := by
    intro k hk
    unfold InMemoryDao.GetTransactions
    simp [hk]
  have hf : GetTransactions dao a = [] := by
    rw [getTransactions_eq_map, hk _ h]
    rfl
  refine ⟨hk _ h, by rw [hk _ h]; rfl, hf, by rw [hf]; rfl, hk⟩

/-- C12 at the address `0xABC` on a store that holds `0xdef` only. -/
theorem unknown_address_empty_witness :
    GetTransactions (storeAt 7 ["0xdef"]) "0xABC" = [] :=
  (unknown_address_empty (storeAt 7 ["0xdef"]) "0xABC" (by decide)).2.2.1

/-! ## C13: public projection -/

/-- C13 (public projection). For every store and address, the facade's
`GetTransactions` has the length of the store's log for the lower-cased address,
its `i`-th element is the projection of the `i`-th record of that log, the
projection copies the thirteen public fields unchanged, and two stores with the
same log for the lower-cased address give the same result. -/
theorem public_projection (dao : InMemoryDao) (a : String) :
    (GetTransactions dao a).length = (dao.GetTransactions (ToLower a)).length ∧
    (∀ i : Nat, (GetTransactions dao a)[i]? =
      ((dao.GetTransactions (ToLower a))[i]?).map toTransaction) ∧
    GetTransactions dao a = (dao.GetTransactions (ToLower a)).map toTransaction ∧
    (∀ tx : TransactionModel,
      (toTransaction tx).BlockHash = tx.BlockHash ∧
      (toTransaction tx).BlockNumber = tx.BlockNumber ∧
      (toTransaction tx).From = tx.From ∧
      (toTransaction tx).Gas = tx.Gas ∧
      (toTransaction tx).GasPrice = tx.GasPrice ∧
      (toTransaction tx).Hash = tx.Hash ∧
      (toTransaction tx).Input = tx.Input ∧
      (toTransaction tx).Nonce = tx.Nonce ∧
      (toTransaction tx).To = tx.To ∧
      (toTransaction tx).TransactionIndex = tx.TransactionIndex ∧
      (toTransaction tx).Value = tx.Value ∧
      (toTransaction tx).TxType = tx.TxType ∧
      (toTransaction tx).ChainId = tx.ChainId) ∧
    (∀ d2 : InMemoryDao, d2.GetTransactions (ToLower a) = dao.GetTransactions (ToLower a) →
      GetTransactions d2 a = GetTransactions dao a) := by
  have hmap := getTransactions_eq_map dao a
  refine ⟨by rw [hmap, List.length_map], ?_, hmap, ?_, ?_⟩
  · intro i
    rw [hmap, List.getElem?_map]
  · intro tx
    exact ⟨rfl, rfl, rfl, rfl, rfl, rfl, rfl, rfl, rfl, rfl, rfl, rfl, rfl⟩
  · intro d2 h
    rw [getTransactions_eq_map, getTransactions_eq_map, h]

/-- C13 on two stores in which `0xabc` has the same (empty) log. -/
theorem public_projection_witness :
    GetTransactions (storeAt 7 ["0xdef"]) "0xABC" = GetTransactions (storeAt 0 []) "0xABC" :=
  (public_projection (storeAt 0 []) "0xABC").2.2.2.2 (storeAt 7 ["0xdef"]) (by decide)

/-! ## C14: `SaveTransaction` -/

/-- C14 (append). For every store, address `a` and record `r`, after
`SaveTransaction a r` the key `a` is present and its log is the previous log
(empty for an absent key) followed by `r`, so the number of occurrences of `r`
grows by one whatever the log held; every other key, every other log and the
watermark are unchanged. The operation is a total function with no error
result. -/
theorem append_transaction (dao : InMemoryDao) (a : String) (r : TransactionModel) :
    (dao.SaveTransaction a r).m a = some (dao.GetTransactions a ++ [r]) ∧
    (dao.SaveTransaction a r).GetTransactions a = dao.GetTransactions a ++ [r] ∧
    (dao.m a = none → (dao.SaveTransaction a r).GetTransactions a = [r]) ∧
    ((dao.SaveTransaction a r).GetTransactions a).count r =
      (dao.GetTransactions a).count r + 1 ∧
    (∀ k, k ≠ a → (dao.SaveTransaction a r).m k = dao.m k) ∧
    (∀ k, k ≠ a → (dao.SaveTransaction a r).GetTransactions k = dao.GetTransactions k) ∧
    (dao.SaveTransaction a r).latestBlock = dao.latestBlock := by
  have hlog : (dao.SaveTransaction a r).GetTransactions a = dao.GetTransactions a ++ [r] := by
    simp [InMemoryDao.getTransactions_saveTransaction]
  refine ⟨?_, hlog, ?_, ?_, ?_, ?_, rfl⟩
  · rw [InMemoryDao.saveTransaction_m, InMemoryDao.getTransactions_eq_mapGet]
    simp
  · intro hnone
    rw [hlog]
    unfold InMemoryDao.GetTransactions
    simp [hnone]
  · rw [hlog]
    simp
  · intro k hk
    rw [InMemoryDao.saveTransaction_m]
    simp [hk]
  · intro k hk
    rw [InMemoryDao.getTransactions_saveTransaction]
    simp [hk]

/-- C14 on a second append of the same record under `0xabc`: the log of `0xdef`
is as before. -/
theorem append_transaction_witness :
    ((((storeAt 7 ["0xdef"]).SaveTransaction "0xabc" (mkTx "0xh1" "0xabc" "0xdef")).SaveTransaction
        "0xabc" (mkTx "0xh1" "0xabc" "0xdef")).GetTransactions "0xdef" =
      (((storeAt 7 ["0xdef"]).SaveTransaction "0xabc"
        (mkTx "0xh1" "0xabc" "0xdef")).GetTransactions "0xdef")) :=
  (append_transaction ((storeAt 7 ["0xdef"]).SaveTransaction "0xabc"
    (mkTx "0xh1" "0xabc" "0xdef")) "0xabc" (mkTx "0xh1" "0xabc" "0xdef")).2.2.2.2.2.1
    "0xdef" (by decide)

/-! ## C15: fault containment -/

theorem update_cons_slept (fuel : Nat) (gw : EthGateway) (rest : List EthGateway) (e : Engine)
    (n : Nat) (h : (updatePass gw fuel e).2 = PassExit.slept n) :
    update fuel (gw :: rest) e = update fuel rest (updatePass gw fuel e).1 := by
  rw [update]
  generalize updatePass gw fuel e = r at h
  obtain ⟨e1, ex⟩ := r
  simp only [] at h
  subst h
  rfl

theorem update_cons_panicked (fuel : Nat) (gw : EthGateway) (rest : List EthGateway)
    (e : Engine) (r : String) (h : (updatePass gw fuel e).2 = PassExit.panicked r) :
    update fuel (gw :: rest) e = ((updatePass gw fuel e).1, UpdateExit.recovered r) := by
  rw [update]
  generalize updatePass gw fuel e = p at h
  obtain ⟨e1, ex⟩ := p
  simp only [] at h
  subst h
  rfl

/-- Passes that run after a schedule that left the loop running. -/
theorem update_append (fuel : Nat) (before rest : List EthGateway) (e : Engine)
    (h : (update fuel before e).2 = UpdateExit.running) :
    update fuel (before ++ rest) e = update fuel rest (update fuel before e).1 := by
  induction before generalizing e with
  | nil => rfl
  | cons gw before ih =>
    cases hp : (updatePass gw fuel e).2 with
    | slept n =>
      rw [List.cons_append, update_cons_slept fuel gw (before ++ rest) e n hp,
        update_cons_slept fuel gw before e n hp]
      rw [update_cons_slept fuel gw before e n hp] at h
      exact ih _ h
    | panicked r =>
      rw [update_cons_panicked fuel gw _ e r hp] at h
      cases h
    | outOfFuel =>
      exfalso
      rw [update] at h
      generalize updatePass gw fuel e = p at hp h
      obtain ⟨e1, ex⟩ := p
      simp only [] at hp
      subst hp
      cases h

theorem updatePass_height_panic (gw : EthGateway) (fuel : Nat) (e : Engine) (r : String)
    (hg : gw.GetMostRecentBlockNumber = GwResult.panic r) :
    (updatePass gw fuel e).2 = PassExit.panicked r := by
  rw [updatePass_eq, passTrace_panic gw fuel e.dao r hg]

/-- C15, counterexample. On the schedule of a pass whose fetch of block 101
panics followed by a pass that would be answered in full, `update` ends in the
deferred `recover`: one height request was issued, the blocks 100 and 101 were
requested, and the watermark stays at 100, whereas the second pass alone would
have brought it to 102. -/
theorem panic_in_first_pass_stops_update :
    (update 5 [gatewayPanickingAt 101 101 blocks100, gatewayOk 102 blocks100]
        { dao := storeAt 100 ["0xa"], trace := [] }).2 = UpdateExit.recovered "runtime error" ∧
      (update 5 [gatewayPanickingAt 101 101 blocks100, gatewayOk 102 blocks100]
        { dao := storeAt 100 ["0xa"], trace := [] }).1.trace.count
          Event.getMostRecentBlockNumber = 1 ∧
      fetchedBlocks (update 5 [gatewayPanickingAt 101 101 blocks100, gatewayOk 102 blocks100]
        { dao := storeAt 100 ["0xa"], trace := [] }).1.trace = [100, 101] ∧
      (update 5 [gatewayPanickingAt 101 101 blocks100, gatewayOk 102 blocks100]
        { dao := storeAt 100 ["0xa"], trace := [] }).1.dao.latestBlock = 100 ∧
      (update 5 [gatewayOk 102 blocks100]
        { dao := storeAt 100 ["0xa"], trace := [] }).1.dao.latestBlock = 102 := by
  decide

/-- C15 (fault containment), amended. When the loop of `update` is still
running after the passes `before` and the next pass panics with value `r`, the
deferred `recover` receives `r` and `update` returns with the store as the
panicking pass left it: the passes scheduled after it do not run, whatever they
are. A panic raised by the height request makes the pass panic. -/
theorem panic_ends_update (fuel : Nat) (before rest : List EthGateway) (gw : EthGateway)
    (e : Engine) (r : String)
    (hrun : (update fuel before e).2 = UpdateExit.running)
    (hpanic : (updatePass gw fuel (update fuel before e).1).2 = PassExit.panicked r) :
    update fuel (before ++ gw :: rest) e =
      ((updatePass gw fuel (update fuel before e).1).1, UpdateExit.recovered r) ∧
    (∀ rest2 : List EthGateway,
      update fuel (before ++ gw :: rest2) e = update fuel (before ++ gw :: rest) e) ∧
    (∀ (gw2 : EthGateway) (e2 : Engine) (r2 : String),
      gw2.GetMostRecentBlockNumber = GwResult.panic r2 →
        (updatePass gw2 fuel e2).2 = PassExit.panicked r2) := by
  have h1 : ∀ rest2 : List EthGateway, update fuel (before ++ gw :: rest2) e =
      ((updatePass gw fuel (update fuel before e).1).1, UpdateExit.recovered r) := by
    intro rest2
    rw [update_append fuel before _ e hrun, update_cons_panicked fuel gw rest2 _ r hpanic]
  refine ⟨h1 rest, ?_, ?_⟩
  · intro rest2
    rw [h1 rest2, h1 rest]
  · intro gw2 e2 r2 hg
    exact updatePass_height_panic gw2 fuel e2 r2 hg

/-- C15 on a first pass that syncs block 100, a second pass whose fetch of
block 101 panics, and a third pass that is never run. -/
theorem panic_ends_update_witness :
    update 5 ([gatewayOk 100 blocks100] ++ gatewayPanickingAt 101 101 blocks100 ::
        [gatewayOk 102 blocks100]) { dao := storeAt 0 ["0xa"], trace := [] } =
      ((updatePass (gatewayPanickingAt 101 101 blocks100) 5
        (update 5 [gatewayOk 100 blocks100] { dao := storeAt 0 ["0xa"], trace := [] }).1).1,
       UpdateExit.recovered "runtime error") :=
  (panic_ends_update 5 [gatewayOk 100 blocks100] [gatewayOk 102 blocks100]
    (gatewayPanickingAt 101 101 blocks100) { dao := storeAt 0 ["0xa"], trace := [] }
    "runtime error" (by decide) (by decide)).1

/-! ## C16: height parsing -/

/-- The height request panics exactly on a decoded `result` of fewer than two
bytes. -/
theorem getMostRecentBlockNumber_panic_iff (resp : HeightResponse) :
    (∃ r, CloudflareEthGateway.GetMostRecentBlockNumber resp = GwResult.panic r) ↔
      ∃ s, resp = HeightResponse.decoded s ∧ (goBytes s).length < 2 := by
  cases resp with
  | postError e => simp [CloudflareEthGateway.GetMostRecentBlockNumber]
  | unmarshalError e => simp [CloudflareEthGateway.GetMostRecentBlockNumber]
  | decoded s =>
    unfold CloudflareEthGateway.GetMostRecentBlockNumber
    by_cases hlen : (goBytes s).length < 2
    · simp [hlen]
    · cases hp : strconv.ParseInt ((goBytes s).drop 2) <;> simp [hlen, hp]

/-- C16 (height parsing), evaluated on the code: on a body that decodes to an
empty `result` (absent, `null` or `""`) and on one that decodes to the
one-character `result` `7`, `GetMostRecentBlockNumber` panics with a slice bounds
error instead of returning an error; on `0x` it returns an error and on `0x1b4`
the number 436. -/
theorem height_parsing_panics_on_short_result :
    CloudflareEthGateway.GetMostRecentBlockNumber (HeightResponse.decoded "") =
        GwResult.panic "runtime error: slice bounds out of range" ∧
      CloudflareEthGateway.GetMostRecentBlockNumber (HeightResponse.decoded "7") =
        GwResult.panic "runtime error: slice bounds out of range" ∧
      CloudflareEthGateway.GetMostRecentBlockNumber (HeightResponse.decoded "0x") =
        GwResult.err "failed to parse the result" ∧
      CloudflareEthGateway.GetMostRecentBlockNumber (HeightResponse.decoded "0x1b4") =
        GwResult.ok 436 := by
  decide
/-! ## C17: self-transfer -/

/-- C17 (self-transfer). For every snapshot, engine state and transaction whose
sender and recipient are the same snapshot address, the loop body issues two
appends under that address, its log gains two copies of the record at its end,
one next to the other, and no other address is touched; in a block the two
copies stand between the entries of the transactions before it and those of the
transactions after it. -/
theorem self_transfer_two_appends (subs : String → Bool) (e : Engine) (tx : TransactionModel)
    (pre post : List TransactionModel)
    (hself : tx.From = tx.To) (hsub : subs tx.From = true) :
    (saveMatching subs e tx).trace =
      e.trace ++ [Event.saveTransaction tx.From tx, Event.saveTransaction tx.From tx] ∧
    (saveMatching subs e tx).dao.GetTransactions tx.From =
      e.dao.GetTransactions tx.From ++ [tx, tx] ∧
    (∀ a, a ≠ tx.From → (saveMatching subs e tx).dao.m a = e.dao.m a) ∧
    (saveBlock subs e (pre ++ tx :: post)).dao.GetTransactions tx.From =
      e.dao.GetTransactions tx.From ++
        (pre.flatMap (entriesFor tx.From) ++ ([tx, tx] ++ post.flatMap (entriesFor tx.From))) := by
  have hto : subs tx.To = true := by rw [← hself]; exact hsub
  refine ⟨?_, ?_, ?_, ?_⟩
  · simp [saveMatching, hsub, hto, Engine.save, ← hself]
  · simp [saveMatching, hsub, hto, Engine.save, ← hself,
      InMemoryDao.getTransactions_saveTransaction]
  · intro a ha
    simp [saveMatching, hsub, hto, Engine.save, ← hself, InMemoryDao.saveTransaction_m, ha]
  · rw [saveBlock_eq]
    simp only []
    rw [getTransactions_replay, savedUnder_saveEvents subs tx.From _ hsub]
    have hent : entriesFor tx.From tx = [tx, tx] := by
      simp [entriesFor, ← hself]
    simp [hent]

/-- C17 on a transfer from `0xa` to `0xa` with `0xa` subscribed. -/
theorem self_transfer_two_appends_witness :
    (saveMatching (storeAt 0 ["0xa"]).GetAllAddresses { dao := storeAt 0 ["0xa"], trace := [] }
      (mkTx "0xh1" "0xa" "0xa")).dao.GetTransactions "0xa" =
      (storeAt 0 ["0xa"]).GetTransactions "0xa" ++
        [mkTx "0xh1" "0xa" "0xa", mkTx "0xh1" "0xa" "0xa"] :=
  (self_transfer_two_appends (storeAt 0 ["0xa"]).GetAllAddresses
    { dao := storeAt 0 ["0xa"], trace := [] } (mkTx "0xh1" "0xa" "0xa") [] []
    (by decide) (by decide)).2.1

/-! ## C18: height-discovery failure -/

/-- C18 (height-discovery failure is a no-op). For every store, when the height
request returns an error, the pass fetches no block, leaves the whole store
(watermark, keys, logs) as it was, issues the 1-second sleep and nothing else,
and 1 second is shorter than the 12 seconds of the other sleep; a pass never
sleeps for any other duration. -/
theorem height_failure_is_noop (gw : EthGateway) (fuel : Nat) (dao : InMemoryDao)
    (msg : String) (hfail : gw.GetMostRecentBlockNumber = GwResult.err msg) :
    (syncPass gw fuel dao).1.dao = dao ∧
    fetchedBlocks (syncPass gw fuel dao).1.trace = [] ∧
    (syncPass gw fuel dao).1.trace = [Event.getMostRecentBlockNumber, Event.sleep 1] ∧
    (syncPass gw fuel dao).2 = PassExit.slept 1 ∧
    (1 : Nat) < 12 ∧
    (∀ (gw2 : EthGateway) (fuel2 : Nat) (dao2 : InMemoryDao) (n : Nat),
      (syncPass gw2 fuel2 dao2).2 = PassExit.slept n → n = 1 ∨ n = 12) := by
  refine ⟨?_, ?_, ?_, ?_, by decide, ?_⟩
  · rw [syncPass_eq, passTrace_err gw fuel dao msg hfail]
    rfl
  · rw [syncPass_eq, passTrace_err gw fuel dao msg hfail]
    rfl
  · rw [syncPass_eq, passTrace_err gw fuel dao msg hfail]
  · rw [syncPass_eq, passTrace_err gw fuel dao msg hfail]
  · intro gw2 fuel2 dao2 n h
    rw [syncPass_eq] at h
    simp only [] at h
    cases hg : gw2.GetMostRecentBlockNumber with
    | panic r => rw [passTrace_panic gw2 fuel2 dao2 r hg] at h; cases h
    | err m => rw [passTrace_err gw2 fuel2 dao2 m hg] at h; cases h; exact Or.inl rfl
    | ok latest =>
      by_cases he : latest = dao2.latestBlock
      · rw [passTrace_same gw2 fuel2 dao2 latest hg he] at h; cases h; exact Or.inr rfl
      · rw [passTrace_ok gw2 fuel2 dao2 latest hg he] at h
        simp only [] at h
        generalize (loopTrace gw2 dao2.GetAllAddresses latest fuel2
          (if dao2.latestBlock = 0 then latest else dao2.latestBlock)).2 = ex at h
        cases ex <;> simp [passEnd] at h
        · exact Or.inr h.symm
        · exact Or.inl h.symm

/-- C18 on a store with watermark 100 and `0xa` subscribed. -/
theorem height_failure_is_noop_witness :
    (syncPass gatewayHeightError 5 (storeAt 100 ["0xa"])).1.dao = storeAt 100 ["0xa"] :=
  (height_failure_is_noop gatewayHeightError 5 (storeAt 100 ["0xa"]) "timeout" rfl).1

/-! ## C19: the engine never changes the subscription set -/

/-- Replaying calls whose appends are all under present keys leaves the key set
as it was. -/
theorem isSome_replay (t : List Event) (dao : InMemoryDao)
    (h : ∀ a r, Event.saveTransaction a r ∈ t → (dao.m a).isSome = true) (k : String) :
    ((replay dao t).m k).isSome = (dao.m k).isSome := by
  induction t generalizing dao with
  | nil => rfl
  | cons ev t ih =>
    rw [replay_cons]
    have hstep : ∀ x, ((applyEvent dao ev).m x).isSome = (dao.m x).isSome := by
      intro x
      cases ev with
      | saveTransaction a r =>
        simp only [applyEvent]
        rw [InMemoryDao.isSome_saveTransaction]
        by_cases hx : x = a
        · subst hx
          simp [h x r (List.mem_cons_self _ _)]
        · simp [hx]
      | updateLatestBlock b => rfl
      | getMostRecentBlockNumber => rfl
      | getTransactionsByBlockNumber b => rfl
      | sleep n => rfl
    rw [ih (applyEvent dao ev) (fun a r hm => by
      rw [hstep]
      exact h a r (List.mem_cons_of_mem _ hm)), hstep]

theorem isSome_updatePass (gw : EthGateway) (fuel : Nat) (e : Engine) (k : String) :
    ((updatePass gw fuel e).1.dao.m k).isSome = (e.dao.m k).isSome := by
  rw [updatePass_eq]
  exact isSome_replay _ e.dao (fun a r h => mem_passTrace_save gw fuel e.dao a r h) k

theorem isSome_update (fuel : Nat) (gws : List EthGateway) (e : Engine) (k : String) :
    ((update fuel gws e).1.dao.m k).isSome = (e.dao.m k).isSome := by
  induction gws generalizing e with
  | nil => rfl
  | cons gw rest ih =>
    have hp := isSome_updatePass gw fuel e k
    unfold update
    generalize updatePass gw fuel e = r at hp
    obtain ⟨e1, ex⟩ := r
    cases ex with
    | slept n => simp only []; rw [ih e1]; exact hp
    | panicked m => exact hp
    | outOfFuel => exact hp

/-- C19 (subscription set). For every store and gateway behaviour, the key set
of the store after a pass (also one cut short or ended by a panic) is the key
set before it; every append of the pass is under an address of the snapshot,
and at the moment it is issued the address is a key, so `SaveTransaction` never
creates one; the same holds after any schedule of passes; and `Subscribe a`
adds the lower-case form of `a` and removes nothing. -/
theorem engine_keeps_subscription_set (gw : EthGateway) (fuel : Nat) (dao : InMemoryDao) :
    (∀ k, (syncPass gw fuel dao).1.dao.GetAllAddresses k = dao.GetAllAddresses k) ∧
    (∀ a r, Event.saveTransaction a r ∈ (syncPass gw fuel dao).1.trace →
      dao.GetAllAddresses a = true) ∧
    (∀ pre post a r, (syncPass gw fuel dao).1.trace = pre ++ Event.saveTransaction a r :: post →
      (replay dao pre).GetAllAddresses a = true) ∧
    (∀ (gws : List EthGateway) (k : String),
      (update fuel gws { dao := dao, trace := [] }).1.dao.GetAllAddresses k =
        dao.GetAllAddresses k) ∧
    (∀ a k, (Subscribe dao a).1.GetAllAddresses k =
      (dao.GetAllAddresses k || decide (k = ToLower a))) := by
  refine ⟨?_, ?_, ?_, ?_, ?_⟩
  · intro k
    exact isSome_updatePass gw fuel { dao := dao, trace := [] } k
  · intro a r h
    rw [syncPass_eq] at h
    exact mem_passTrace_save gw fuel dao a r h
  · intro pre post a r h
    rw [syncPass_eq] at h
    simp only [] at h
    have hall : ∀ x y, Event.saveTransaction x y ∈ pre → (dao.m x).isSome = true := by
      intro x y hm
      apply mem_passTrace_save gw fuel dao x y
      rw [h]
      exact List.mem_append_left _ hm
    have ha : dao.GetAllAddresses a = true := by
      apply mem_passTrace_save gw fuel dao a r
      rw [h]
      simp
    unfold InMemoryDao.GetAllAddresses
    rw [isSome_replay pre dao hall a]
    exact ha
  · intro gws k
    exact isSome_update fuel gws { dao := dao, trace := [] } k
  · intro a k
    unfold Subscribe InMemoryDao.GetAllAddresses
    simp only []
    rw [InMemoryDao.createAddress_m]
    by_cases hk : k = ToLower a
    · simp [hk]
    · simp [hk]

/-- C19 on a pass from watermark 100 to height 101 with `0xa` subscribed: the
append of block 100 is under `0xa`, and `0xb` is not a key afterwards. -/
theorem engine_keeps_subscription_set_witness :
    (storeAt 100 ["0xa"]).GetAllAddresses "0xa" = true ∧
      (syncPass (gatewayOk 101 blocks100) 3 (storeAt 100 ["0xa"])).1.dao.GetAllAddresses "0xb" =
        (storeAt 100 ["0xa"]).GetAllAddresses "0xb" :=
  ⟨(engine_keeps_subscription_set (gatewayOk 101 blocks100) 3 (storeAt 100 ["0xa"])).2.1
      "0xa" (mkTx "0xh1" "0xa" "0xb") (by decide),
   (engine_keeps_subscription_set (gatewayOk 101 blocks100) 3 (storeAt 100 ["0xa"])).1 "0xb"⟩

end EthParser
